import Mathlib

/-!
Verification development for the TOUGH language compiler core
(lexer `tough/lexer.py`, AST `tough/ast_nodes.py`, code generator
`tough/codegen.py`, driver `tough/compiler.py`).

The Python sources are shallowly embedded: pure fragments become Lean
functions, the stateful code generator becomes explicit state passing over a
`CG` record, Python exceptions become an explicit error constructor that also
carries the state at the moment of the raise (matching the fact that a Python
exception leaves the object's mutations in place).  Machine integers are
modelled as `Int`; the emitted LLVM constructs are modelled by a small
instruction syntax together with a straight-line execution semantics.
-/

namespace Tough

/-! ## Token model (src/tough/tokens.py)

`TokenType` is the closed enumeration of token kinds.  The constructor that
the source calls `FN_PREFIX` is named `FN_HEAD` here; everything else keeps
the source's name. -/

inductive TokenType where
  | INT
  | FLOAT
  | STRING
  | IDENT
  | PROGRAM_START
  | PROGRAM_END
  | DECLARE_DA
  | DECLARE_REVEAL
  | ASSIGN_TSUGU
  | PRINT
  | INPUT
  | INCREMENT
  | DECREMENT
  | EQ
  | NEQ
  | GT
  | LT
  | IF
  | ELIF
  | ELSE
  | WHILE
  | FN_HEAD
  | FN_GA
  | FN_RUNDA
  | CATCH
  | THROW
  | COMMENT
  | LBRACE
  | RBRACE
  | LPAREN
  | RPAREN
  | PERCENT
  | NEWLINE
  | EOF
deriving DecidableEq, Repr

/-- Token record: kind, textual value, source line (src/tough/tokens.py). -/
structure Token where
  type : TokenType
  value : String
  line : Nat
deriving DecidableEq, Repr

/-! ## Lexer errors (src/tough/lexer.py)

`LexerError(message, line)` is the lexer's own exception class.  The
expression sub-lexer can also let a built-in Python `ValueError` escape
(`str.index` at lexer.py line 220, which raises
`ValueError("substring not found")` when `」` is absent); that exception
carries no source line.  Both are modelled by one error type so a theorem can
distinguish which of the two a given input produces. -/

inductive LexErr where
  | lexerError (msg : String) (line : Nat)
  | valueError (msg : String)
deriving DecidableEq, Repr

/-! ## Expression sub-lexer (src/tough/lexer.py, `Lexer._tokenize_expr`)

The Python code scans a string left to right with a position index.  Each
iteration of its `while` loop either skips one whitespace character, emits
one token and advances past the consumed text, or raises.  `exprStep` is that
loop body (for a non-empty remainder `c :: cs`); `exprScan` iterates it.
`exprScan`'s first argument is a structural-recursion bound; it is called
with the length of the character list, which the fuel-irrelevance lemma
`exprScan_fuel` below shows is always sufficient. -/

def isExprSpace (c : Char) : Bool :=
  c = ' ' || c = '\t' || c = '　'

/-- Identifier start class of the regex `[a-zA-Z_぀-鿿]`. -/
def isIdentStartCh (c : Char) : Bool :=
  ('a' ≤ c && c ≤ 'z') || ('A' ≤ c && c ≤ 'Z') || c = '_' ||
    (0x3040 ≤ c.val && c.val ≤ 0x9fff)

/-- Identifier continuation class of the regex `[a-zA-Z0-9_぀-鿿]`. -/
def isIdentContCh (c : Char) : Bool :=
  isIdentStartCh c || c.isDigit

def neqStr : String := "ガチンコじゃない"
def eqStr : String := "ガチンコ"
def gtStr : String := "を超えた"
def ltStr : String := "に及ばない"

def neqKw : List Char := ['ガ', 'チ', 'ン', 'コ', 'じ', 'ゃ', 'な', 'い']
def eqKw : List Char := ['ガ', 'チ', 'ン', 'コ']
def gtKw : List Char := ['を', '超', 'え', 'た']
def ltKw : List Char := ['に', '及', 'ば', 'な', 'い']

/-- Python's `str.startswith`: does the keyword occur at the start of the
remaining input?  (A hand-rolled prefix test whose recursion is on the
keyword, so that it fully reduces once the keyword is exhausted.) -/
def kwPre : List Char → List Char → Bool
  | [], _ => true
  | k :: ks, l =>
    match l with
    | [] => false
    | c :: cs => k == c && kwPre ks cs

/-- Numeric-literal tail: the regex `\d+(\.\d+)?` applied at the current
position (digits here are ASCII digits; the Python original also accepts
other Unicode decimal digits, which no claim involves).  Returns the matched
characters and the rest. -/
def takeNumTail (l : List Char) : List Char × List Char :=
  match l.dropWhile Char.isDigit with
  | '.' :: r2 =>
    if r2.takeWhile Char.isDigit = [] then
      (l.takeWhile Char.isDigit, l.dropWhile Char.isDigit)
    else
      (l.takeWhile Char.isDigit ++ '.' :: r2.takeWhile Char.isDigit,
       r2.dropWhile Char.isDigit)
  | _ => (l.takeWhile Char.isDigit, l.dropWhile Char.isDigit)

/-- Numeric literal with the regex's optional leading minus (`-?\d+(\.\d+)?`). -/
def takeNumber (l : List Char) : List Char × List Char :=
  match l with
  | '-' :: rest =>
    (('-' :: (takeNumTail rest).1), (takeNumTail rest).2)
  | _ => takeNumTail l

def headIsDigit : List Char → Bool
  | d :: _ => d.isDigit
  | [] => false

/-- Result of one iteration of the `_tokenize_expr` loop body. -/
inductive StepRes where
  | emit (t : Token) (rest : List Char)
  | skipWs (rest : List Char)
  | fail (e : LexErr)
deriving DecidableEq, Repr

/-- Remaining input after a non-failing scanner step. -/
def StepRes.restOf : StepRes → Option (List Char)
  | .emit _ rest => some rest
  | .skipWs rest => some rest
  | .fail _ => none

/-- One iteration of the `_tokenize_expr` scanning loop (lexer.py 200-260),
for current character `c` and remaining characters `cs`.  The branches appear
in the source's order: whitespace skip; the `EXPR_KEYWORDS` catalog in its
list order (NEQ, EQ, GT, LT); string literal `「…」` (an absent `」` raises
`ValueError` from `str.index`, not a `LexerError`); numeric literal;
`%`; parentheses; identifier; otherwise a `LexerError`. -/
def exprStep (c : Char) (cs : List Char) (line : Nat) : StepRes :=
  if isExprSpace c then .skipWs cs
  else if kwPre neqKw (c :: cs) then
    .emit ⟨.NEQ, neqStr, line⟩ ((c :: cs).drop neqKw.length)
  else if kwPre eqKw (c :: cs) then
    .emit ⟨.EQ, eqStr, line⟩ ((c :: cs).drop eqKw.length)
  else if kwPre gtKw (c :: cs) then
    .emit ⟨.GT, gtStr, line⟩ ((c :: cs).drop gtKw.length)
  else if kwPre ltKw (c :: cs) then
    .emit ⟨.LT, ltStr, line⟩ ((c :: cs).drop ltKw.length)
  else if c = '「' then
    match cs.dropWhile (fun x => x ≠ '」') with
    | [] => .fail (.valueError "substring not found")
    | _ :: rest =>
      .emit ⟨.STRING, String.mk (cs.takeWhile (fun x => x ≠ '」')), line⟩ rest
  else if c.isDigit || (c = '-' && headIsDigit cs) then
    let p := takeNumber (c :: cs)
    .emit ⟨if p.1.contains '.' then .FLOAT else .INT, String.mk p.1, line⟩ p.2
  else if c = '%' then .emit ⟨.PERCENT, "%", line⟩ cs
  else if c = '(' then .emit ⟨.LPAREN, "(", line⟩ cs
  else if c = ')' then .emit ⟨.RPAREN, ")", line⟩ cs
  else if isIdentStartCh c then
    .emit ⟨.IDENT, String.mk (c :: cs.takeWhile isIdentContCh), line⟩
      (cs.dropWhile isIdentContCh)
  else .fail (.lexerError ("認識できない文字: " ++ String.mk [c]) line)

/-- Iterated scanning loop of `_tokenize_expr`.  The `Nat` argument only
bounds the recursion; each loop iteration consumes at least one character
(`exprStep_rest_length`), so starting it at the input's length reproduces the
Python loop exactly. -/
def exprScan : Nat → List Char → Nat → Except LexErr (List Token)
  | _, [], _ => .ok []
  | 0, _ :: _, _ => .ok []
  | fuel + 1, c :: cs, line =>
    match exprStep c cs line with
    | .fail e => .error e
    | .skipWs rest => exprScan fuel rest line
    | .emit t rest => (exprScan fuel rest line).map (fun ts => t :: ts)

/-- The expression sub-lexer `Lexer._tokenize_expr`: token list of an
expression string, or the exception it raises. -/
def tokenizeExpr (e : String) (line : Nat) : Except LexErr (List Token) :=
  exprScan e.toList.length e.toList line

/-! ## AST (src/tough/ast_nodes.py)

Every node carries its source line.  `FloatLiteral` holds a Python float that
the code generator immediately truncates with `int(...)` (codegen.py 335-336);
since no claim involves float arithmetic, the constructor carries the
truncated integer payload directly. -/

inductive Expr where
  | intLit (value : Int) (line : Nat)
  | floatLit (truncated : Int) (line : Nat)
  | strLit (value : String) (line : Nat)
  | ident (name : String) (line : Nat)
  | binOp (op : String) (left : Expr) (right : Expr) (line : Nat)
deriving DecidableEq, Repr

inductive Stmt where
  | programStart (line : Nat)
  | programEnd (line : Nat)
  | comment (text : String) (line : Nat)
  | declare (name : String) (line : Nat)
  | assign (name : String) (value : Expr) (line : Nat)
  | printS (value : Expr) (line : Nat)
  | inputS (name : String) (line : Nat)
  | increment (name : String) (line : Nat)
  | decrement (name : String) (line : Nat)
  | ifS (condition : Expr) (thenBody : List Stmt)
      (elifClauses : List (Expr × List Stmt)) (elseBody : List Stmt) (line : Nat)
  | whileS (condition : Expr) (body : List Stmt) (line : Nat)
  | fn (name : String) (params : List String) (body : List Stmt) (line : Nat)
  | throwS (line : Nat)

/-- Program root node. -/
structure Program where
  statements : List Stmt

/-! ## LLVM IR model

The code generator builds a module through llvmlite's `IRBuilder`.  The
instruction subset it ever emits is modelled syntactically.  Operands are
64-bit (or 32-bit) integer constants, instruction results (`reg`, identified
by a global counter standing for llvmlite's instruction objects), incoming
function arguments (`farg`), or pointers to global string constants.  An
`alloca`'s result register doubles as the name of its stack slot. -/

inductive Operand where
  | const (width : Nat) (value : Int)
  | reg (id : Nat)
  | farg (idx : Nat)
  | globalStr (name : String)
deriving DecidableEq, Repr

/-- Signed icmp predicates used by the generator ("==", "!=", ">", "<"). -/
inductive Pred where
  | eq
  | ne
  | sgt
  | slt
deriving DecidableEq, Repr

inductive Instr where
  | alloca (rid : Nat) (name : String)
  | store (val : Operand) (slot : Operand)
  | load (rid : Nat) (slot : Operand)
  | icmp (rid : Nat) (p : Pred) (a : Operand) (b : Operand)
  | zext (rid : Nat) (a : Operand)
  | srem (rid : Nat) (a : Operand) (b : Operand)
  | add (rid : Nat) (a : Operand) (b : Operand)
  | sub (rid : Nat) (a : Operand) (b : Operand)
  | gep (rid : Nat) (base : Operand)
  | call (rid : Nat) (fname : String) (args : List Operand)
  | br (target : Nat)
  | condBr (cond : Operand) (tTarget : Nat) (fTarget : Nat)
  | ret (width : Nat) (v : Operand)
deriving DecidableEq, Repr

/-- Terminator instructions in the sense of LLVM (branch, conditional
branch, return). -/
def Instr.isTerminator : Instr → Bool
  | .br _ => true
  | .condBr _ _ _ => true
  | .ret _ _ => true
  | _ => false

/-! ## Code generator state (src/tough/codegen.py, class CodeGenerator)

Basic blocks are identified by numbers drawn from `blockCounter`; `blocks`
maps each block id to its instruction list (blocks are only ever appended to
at the end, which matches llvmlite's builder in this code base: every block
is positioned-at exactly once, while it is still empty).  `funcs` lists the
module's defined functions in creation order — index 0 is `main` — with the
ids of their blocks; the three external declarations printf/scanf/exit have
no body and are left implicit.  `curFn`/`curBlock` are the builder position,
`vars` is `self.variables` (a Python dict modelled as an association list
where the most recent binding is found first), `stringCounter` is
`self._string_counter`, and `globals` holds the emitted string constants.
`regCounter` provides identities for instruction results. -/

structure CG where
  vars : List (String × Nat)
  stringCounter : Nat
  regCounter : Nat
  blockCounter : Nat
  blocks : List (Nat × List Instr)
  funcs : List (String × List Nat)
  globals : List (String × String)
  curFn : Nat
  curBlock : Nat
deriving DecidableEq, Repr

/-- Dictionary lookup (first match wins; new bindings are prepended). -/
def lookupA : List (String × Nat) → String → Option Nat
  | [], _ => none
  | (k, v) :: rest, x => if k = x then some v else lookupA rest x

def lookupBlock : List (Nat × List Instr) → Nat → Option (List Instr)
  | [], _ => none
  | (b, l) :: rest, bid => if b = bid then some l else lookupBlock rest bid

def lookupG : List (String × String) → String → Option String
  | [], _ => none
  | (k, v) :: rest, x => if k = x then some v else lookupG rest x

/-- Append one instruction at the end of block `bid`. -/
def updateBlocks : List (Nat × List Instr) → Nat → Instr → List (Nat × List Instr)
  | [], _, _ => []
  | (b, l) :: rest, bid, i =>
    if b = bid then (b, l ++ [i]) :: rest else (b, l) :: updateBlocks rest bid i

/-- Record block id `bid` as belonging to function number `fidx`. -/
def addBlockToFn : List (String × List Nat) → Nat → Nat → List (String × List Nat)
  | [], _, _ => []
  | (f, bl) :: rest, 0, bid => (f, bl ++ [bid]) :: rest
  | (f, bl) :: rest, n + 1, bid => (f, bl) :: addBlockToFn rest n bid

/-- Builder append at the current position (`self.builder.<instr>(...)`). -/
def appendInstr (s : CG) (i : Instr) : CG :=
  { s with blocks := updateBlocks s.blocks s.curBlock i }

/-- Create a fresh empty basic block in the current function
(`func.append_basic_block(...)`; the Python-side label strings play no
structural role and are dropped). -/
def newBlock (s : CG) : Nat × CG :=
  (s.blockCounter,
   { s with
       blockCounter := s.blockCounter + 1,
       blocks := s.blocks ++ [(s.blockCounter, [])],
       funcs := addBlockToFn s.funcs s.curFn s.blockCounter })

/-- Move the builder (`position_at_start`; in this code base the target is
always a block of the current function). -/
def setBlock (s : CG) (bid : Nat) : CG :=
  { s with curBlock := bid }

def freshReg (s : CG) : Nat × CG :=
  (s.regCounter, { s with regCounter := s.regCounter + 1 })

/-- The `_create_global_string` helper: bump the counter, add a global
constant named `.str.<n>` holding the text (the UTF-8 + NUL encoding is kept
abstract as the string itself). -/
def createGlobalString (s : CG) (v : String) : String × CG :=
  (".str." ++ toString (s.stringCounter + 1),
   { s with
       stringCounter := s.stringCounter + 1,
       globals := s.globals ++ [(".str." ++ toString (s.stringCounter + 1), v)] })

/-- Python's `CodeGenError(message, line)` (codegen.py 18-22). -/
structure CodeGenError where
  msg : String
  line : Nat
deriving DecidableEq, Repr

/-- Result of a code-generation step.  A raised Python exception leaves the
generator object's prior mutations in place, so the error constructor also
carries the state at the moment of the raise. -/
inductive Res (α : Type) where
  | ok (a : α) (s : CG)
  | err (e : CodeGenError) (s : CG)
deriving DecidableEq, Repr

/-- State carried by a result, whether or not an exception was raised. -/
def Res.state : Res α → CG
  | .ok _ s => s
  | .err _ s => s

/-- Expression lowering `CodeGenerator._gen_expression` (codegen.py 330-369).
Comparisons emit a signed `icmp` zero-extended to i64; `%` emits `srem`;
identifiers load from their slot and raise on unknown names; float literals
are truncated to i64 constants; strings become global constants accessed
through a `gep`. -/
def genExpr : Expr → CG → Res Operand
  | .intLit v _, s => .ok (.const 64 v) s
  | .floatLit v _, s => .ok (.const 64 v) s
  | .ident x lin, s =>
    match lookupA s.vars x with
    | none => .err ⟨"未定義の変数: " ++ x, lin⟩ s
    | some slot =>
      let p := freshReg s
      .ok (.reg p.1) (appendInstr p.2 (.load p.1 (.reg slot)))
  | .strLit v _, s =>
    let g := createGlobalString s v
    let p := freshReg g.2
    .ok (.reg p.1) (appendInstr p.2 (.gep p.1 (.globalStr g.1)))
  | .binOp op l r lin, s =>
    match genExpr l s with
    | .err e s' => .err e s'
    | .ok a s₁ =>
      match genExpr r s₁ with
      | .err e s' => .err e s'
      | .ok b s₂ =>
        if op = "==" then
          let p := freshReg s₂
          let s₃ := appendInstr p.2 (.icmp p.1 .eq a b)
          let q := freshReg s₃
          .ok (.reg q.1) (appendInstr q.2 (.zext q.1 (.reg p.1)))
        else if op = "!=" then
          let p := freshReg s₂
          let s₃ := appendInstr p.2 (.icmp p.1 .ne a b)
          let q := freshReg s₃
          .ok (.reg q.1) (appendInstr q.2 (.zext q.1 (.reg p.1)))
        else if op = ">" then
          let p := freshReg s₂
          let s₃ := appendInstr p.2 (.icmp p.1 .sgt a b)
          let q := freshReg s₃
          .ok (.reg q.1) (appendInstr q.2 (.zext q.1 (.reg p.1)))
        else if op = "<" then
          let p := freshReg s₂
          let s₃ := appendInstr p.2 (.icmp p.1 .slt a b)
          let q := freshReg s₃
          .ok (.reg q.1) (appendInstr q.2 (.zext q.1 (.reg p.1)))
        else if op = "%" then
          let p := freshReg s₂
          .ok (.reg p.1) (appendInstr p.2 (.srem p.1 a b))
        else .err ⟨"未対応の演算子: " ++ op, lin⟩ s₂

/-- Does an instruction list end with a terminator (llvmlite's
`Block.is_terminated` looks at the last instruction only)? -/
def endsWithTerm (l : List Instr) : Bool :=
  match l.getLast? with
  | some i => i.isTerminator
  | none => false

/-- Is block `b` terminated in state `s`? -/
def blockTermAt (s : CG) (b : Nat) : Bool :=
  match lookupBlock s.blocks b with
  | some l => endsWithTerm l
  | none => false

/-- Has the builder's current block already been terminated?
(`self.builder.block.is_terminated`.) -/
def blockTerminated (s : CG) : Bool :=
  blockTermAt s s.curBlock

/-- The `cond != 0` test plus conditional branch shared verbatim by
`_gen_if` (234-237, 251-253) and `_gen_while` (284-286): signed `icmp !=`
against the i64 constant 0, zero-extension omitted because `cbranch`
consumes the i1 directly. -/
def emitCondBr (v : Operand) (tTarget fTarget : Nat) (s : CG) : CG :=
  let p := freshReg s
  appendInstr (appendInstr p.2 (.icmp p.1 .ne v (.const 64 0)))
    (.condBr (.reg p.1) tTarget fTarget)

/-- Block creation for the elif clauses of `_gen_if` (codegen.py 221-225):
one `(cond, body)` block pair per clause, in order, before anything else is
generated. -/
def mkElifBlocks : List (Expr × List Stmt) → CG → List (Nat × Nat) × CG
  | [], s => ([], s)
  | _ :: rest, s =>
    let cb := newBlock s
    let bb := newBlock cb.2
    let r := mkElifBlocks rest bb.2
    ((cb.1, bb.1) :: r.1, r.2)

/-- Parameter slots of `_gen_function` (codegen.py 312-317): per parameter an
`alloca` and a store of the incoming argument, the slot recorded in the
fresh variable table. -/
def genParams : List String → Nat → CG → CG
  | [], _, s => s
  | pname :: rest, i, s =>
    let p := freshReg s
    let s₁ := appendInstr p.2 (.alloca p.1 pname)
    let s₂ := appendInstr s₁ (.store (.farg i) (.reg p.1))
    genParams rest (i + 1) { s₂ with vars := (pname, p.1) :: s₂.vars }

mutual

/-- Statement lowering `CodeGenerator._gen_statement` (codegen.py 99-154)
together with the per-statement helpers it dispatches to. -/
def genStmt : Stmt → CG → Res Unit
  | .comment _ _, s => .ok () s
  | .programStart _, s => .ok () s
  | .programEnd _, s =>
    let p := freshReg s
    let s₁ := appendInstr p.2 (.call p.1 "exit" [.const 32 0])
    .ok () (appendInstr s₁ (.ret 32 (.const 32 0)))
  | .throwS _, s =>
    let p := freshReg s
    let s₁ := appendInstr p.2 (.call p.1 "exit" [.const 32 1])
    .ok () (appendInstr s₁ (.ret 32 (.const 32 1)))
  | .declare x _, s =>
    let p := freshReg s
    let s₁ := appendInstr p.2 (.alloca p.1 x)
    let s₂ := appendInstr s₁ (.store (.const 64 0) (.reg p.1))
    .ok () { s₂ with vars := (x, p.1) :: s₂.vars }
  | .assign x v _, s =>
    match genExpr v s with
    | .err e s' => .err e s'
    | .ok value s₁ =>
      match lookupA s₁.vars x with
      | some slot => .ok () (appendInstr s₁ (.store value (.reg slot)))
      | none =>
        let p := freshReg s₁
        let s₂ := appendInstr p.2 (.alloca p.1 x)
        let s₃ := { s₂ with vars := (x, p.1) :: s₂.vars }
        .ok () (appendInstr s₃ (.store value (.reg p.1)))
  | .printS v _, s =>
    match v with
    | .strLit content _ =>
      let fmt := createGlobalString s "%s\n"
      let fp := freshReg fmt.2
      let s₁ := appendInstr fp.2 (.gep fp.1 (.globalStr fmt.1))
      let sv := createGlobalString s₁ content
      let sp := freshReg sv.2
      let s₂ := appendInstr sp.2 (.gep sp.1 (.globalStr sv.1))
      let cp := freshReg s₂
      .ok () (appendInstr cp.2 (.call cp.1 "printf" [.reg fp.1, .reg sp.1]))
    | _ =>
      match genExpr v s with
      | .err e s' => .err e s'
      | .ok value s₁ =>
        let fmt := createGlobalString s₁ "%lld\n"
        let fp := freshReg fmt.2
        let s₂ := appendInstr fp.2 (.gep fp.1 (.globalStr fmt.1))
        let cp := freshReg s₂
        .ok () (appendInstr cp.2 (.call cp.1 "printf" [.reg fp.1, value]))
  | .inputS x _, s =>
    let withSlot :=
      match lookupA s.vars x with
      | some slot => (slot, s)
      | none =>
        let p := freshReg s
        let s₁ := appendInstr p.2 (.alloca p.1 x)
        (p.1, { s₁ with vars := (x, p.1) :: s₁.vars })
    let fmt := createGlobalString withSlot.2 "%lld"
    let fp := freshReg fmt.2
    let s₂ := appendInstr fp.2 (.gep fp.1 (.globalStr fmt.1))
    let cp := freshReg s₂
    .ok () (appendInstr cp.2 (.call cp.1 "scanf" [.reg fp.1, .reg withSlot.1]))
  | .increment x lin, s =>
    match lookupA s.vars x with
    | none => .err ⟨"未定義の変数: " ++ x, lin⟩ s
    | some slot =>
      let p := freshReg s
      let s₁ := appendInstr p.2 (.load p.1 (.reg slot))
      let q := freshReg s₁
      let s₂ := appendInstr q.2 (.add q.1 (.reg p.1) (.const 64 1))
      .ok () (appendInstr s₂ (.store (.reg q.1) (.reg slot)))
  | .decrement x lin, s =>
    match lookupA s.vars x with
    | none => .err ⟨"未定義の変数: " ++ x, lin⟩ s
    | some slot =>
      let p := freshReg s
      let s₁ := appendInstr p.2 (.load p.1 (.reg slot))
      let q := freshReg s₁
      let s₂ := appendInstr q.2 (.sub q.1 (.reg p.1) (.const 64 1))
      .ok () (appendInstr s₂ (.store (.reg q.1) (.reg slot)))
  | .ifS cond thenBody elifClauses elseBody _, s =>
    let thenB := newBlock s
    let mergeB := newBlock thenB.2
    let elifs := mkElifBlocks elifClauses mergeB.2
    let withElse : Option Nat × CG :=
      match elseBody with
      | [] => (none, elifs.2)
      | _ :: _ =>
        let eb := newBlock elifs.2
        (some eb.1, eb.2)
    let firstFalse :=
      match elifs.1 with
      | (cb, _) :: _ => cb
      | [] =>
        match withElse.1 with
        | some b => b
        | none => mergeB.1
    match genExpr cond withElse.2 with
    | .err e s' => .err e s'
    | .ok v s₅ =>
      let s₆ := emitCondBr v thenB.1 firstFalse s₅
      match genStmts thenBody (setBlock s₆ thenB.1) with
      | .err e s' => .err e s'
      | .ok _ s₇ =>
        let s₈ := if blockTerminated s₇ then s₇ else appendInstr s₇ (.br mergeB.1)
        let finalTarget :=
          match withElse.1 with
          | some b => b
          | none => mergeB.1
        match genElifs mergeB.1 finalTarget elifs.1 elifClauses s₈ with
        | .err e s' => .err e s'
        | .ok _ s₉ =>
          match withElse.1 with
          | none => .ok () (setBlock s₉ mergeB.1)
          | some eb =>
            match genStmts elseBody (setBlock s₉ eb) with
            | .err e s' => .err e s'
            | .ok _ s₁₀ =>
              let s₁₁ :=
                if blockTerminated s₁₀ then s₁₀ else appendInstr s₁₀ (.br mergeB.1)
              .ok () (setBlock s₁₁ mergeB.1)
  | .whileS cond body _, s =>
    let condB := newBlock s
    let bodyB := newBlock condB.2
    let mergeB := newBlock bodyB.2
    let s₁ := appendInstr mergeB.2 (.br condB.1)
    match genExpr cond (setBlock s₁ condB.1) with
    | .err e s' => .err e s'
    | .ok v s₂ =>
      let s₃ := emitCondBr v bodyB.1 mergeB.1 s₂
      match genStmts body (setBlock s₃ bodyB.1) with
      | .err e s' => .err e s'
      | .ok _ s₄ =>
        let s₅ := if blockTerminated s₄ then s₄ else appendInstr s₄ (.br condB.1)
        .ok () (setBlock s₅ mergeB.1)
  | .fn fname params body _, s =>
    let fIdx := s.funcs.length
    let s₁ := { s with funcs := s.funcs ++ [(fname, [])] }
    let savedFn := s.curFn
    let savedBlock := s.curBlock
    let savedVars := s.vars
    let entry := newBlock { s₁ with curFn := fIdx }
    let s₂ := { entry.2 with curBlock := entry.1, vars := [] }
    let s₃ := genParams params 0 s₂
    match genStmts body s₃ with
    | .err e s' => .err e s'
    | .ok _ s₄ =>
      let s₅ := if blockTerminated s₄ then s₄ else appendInstr s₄ (.ret 64 (.const 64 0))
      .ok () { s₅ with curFn := savedFn, curBlock := savedBlock, vars := savedVars }

/-- Sequential lowering of a statement list (the `for` loops over bodies in
codegen.py; a raised exception aborts the whole loop). -/
def genStmts : List Stmt → CG → Res Unit
  | [], s => .ok () s
  | st :: rest, s =>
    match genStmt st s with
    | .err e s' => .err e s'
    | .ok _ s' => genStmts rest s'

/-- The elif loop of `_gen_if` (codegen.py 247-259).  `bids` are the block
pairs made by `mkElifBlocks`; each clause's false target is the next
clause's cond block, or `finalTarget` (the else block if present, otherwise
merge) for the last clause. -/
def genElifs (mergeB finalTarget : Nat) :
    List (Nat × Nat) → List (Expr × List Stmt) → CG → Res Unit
  | _, [], s => .ok () s
  | [], _ :: _, s => .ok () s
  | (cb, bb) :: bidRest, (cond, body) :: rest, s =>
    let nxt :=
      match bidRest with
      | (cb', _) :: _ => cb'
      | [] => finalTarget
    match genExpr cond (setBlock s cb) with
    | .err e s' => .err e s'
    | .ok v s₁ =>
      let s₂ := emitCondBr v bb nxt s₁
      match genStmts body (setBlock s₂ bb) with
      | .err e s' => .err e s'
      | .ok _ s₃ =>
        let s₄ := if blockTerminated s₃ then s₃ else appendInstr s₃ (.br mergeB)
        genElifs mergeB finalTarget bidRest rest s₄

end

/-- State of a fresh `CodeGenerator()` before `generate` runs: counters at
zero (in particular `_string_counter = 0`), no variables, no blocks, no
defined functions. -/
def initCG : CG :=
  { vars := []
    stringCounter := 0
    regCounter := 0
    blockCounter := 0
    blocks := []
    funcs := []
    globals := []
    curFn := 0
    curBlock := 0 }

/-- The `CodeGenerator.generate` entry point (codegen.py 79-97): create
`main` with its entry block, lower every top-level statement, then append
`ret i32 0` if the builder's final block is not yet terminated. -/
def generateFrom (s : CG) (p : Program) : Res Unit :=
  let s₁ := { s with funcs := s.funcs ++ [("main", [])], curFn := s.funcs.length }
  let entry := newBlock s₁
  let s₂ := { entry.2 with curBlock := entry.1 }
  match genStmts p.statements s₂ with
  | .err e s' => .err e s'
  | .ok _ s₃ =>
    .ok () (if blockTerminated s₃ then s₃ else appendInstr s₃ (.ret 32 (.const 32 0)))

/-- Whole-module code generation with a fresh generator, as performed by
`Compiler.compile_source` (compiler.py 28-42) after lexing and parsing. -/
def generate (p : Program) : Res Unit :=
  generateFrom initCG p

/-! ## Straight-line semantics of the emitted instructions

This interprets the instruction subset above on a machine with a register
environment and a heap of stack slots (indexed by the defining `alloca`'s
register id, which is how the generated code uses pointers: slot addresses
never flow into arithmetic).  Calls to the external C functions are
axiomatized by a heap transformer `ext`, constrained where needed by the
hypothesis that an external call only writes through pointer arguments it
actually receives.  Control-flow instructions are no-ops here: the lemmas
below only ever execute straight-line segments inside one block. -/

structure Machine where
  regs : Nat → Int
  heap : Nat → Int

def updF (f : Nat → Int) (k : Nat) (v : Int) : Nat → Int :=
  fun n => if n = k then v else f n

/-- Value of an operand (string-constant pointers are opaque and read as 0;
they are only ever passed to printf, never inspected). -/
def evalOp (m : Machine) : Operand → Int
  | .const _ v => v
  | .reg r => m.regs r
  | .farg i => m.regs i
  | .globalStr _ => 0

def predHolds : Pred → Int → Int → Bool
  | .eq, a, b => a = b
  | .ne, a, b => !(a = b)
  | .sgt, a, b => b < a
  | .slt, a, b => a < b

/-- Two's-complement wraparound of i64 arithmetic. -/
def wrap64 (z : Int) : Int :=
  (z + 2 ^ 63) % 2 ^ 64 - 2 ^ 63

/-- Type of the external-call axiomatization: given callee name, syntactic
argument list and current machine, produce the heap after the call. -/
def ExtCall : Type :=
  String → List Operand → Machine → Nat → Int

def execInstr (ext : ExtCall) : Instr → Machine → Machine
  | .alloca _ _, m => m
  | .store v p, m =>
    match p with
    | .reg slot => { m with heap := updF m.heap slot (evalOp m v) }
    | _ => m
  | .load r p, m =>
    match p with
    | .reg slot => { m with regs := updF m.regs r (m.heap slot) }
    | _ => { m with regs := updF m.regs r 0 }
  | .icmp r pr a b, m =>
    { m with regs := updF m.regs r (if predHolds pr (evalOp m a) (evalOp m b) then 1 else 0) }
  | .zext r a, m => { m with regs := updF m.regs r (evalOp m a) }
  | .srem r a b, m => { m with regs := updF m.regs r (Int.tmod (evalOp m a) (evalOp m b)) }
  | .add r a b, m => { m with regs := updF m.regs r (wrap64 (evalOp m a + evalOp m b)) }
  | .sub r a b, m => { m with regs := updF m.regs r (wrap64 (evalOp m a - evalOp m b)) }
  | .gep r _, m => { m with regs := updF m.regs r 0 }
  | .call r f args, m => { m with heap := ext f args m, regs := updF m.regs r 0 }
  | .br _, m => m
  | .condBr _ _ _, m => m
  | .ret _ _, m => m

def execList (ext : ExtCall) (l : List Instr) (m : Machine) : Machine :=
  l.foldl (fun acc i => execInstr ext i acc) m

/-- Does this instruction syntactically write to stack slot `slot`?  (A
store whose pointer operand is the slot, or an external call receiving the
slot's address as an argument.) -/
def writesSlot (slot : Nat) : Instr → Bool
  | .store _ p => p = Operand.reg slot
  | .call _ _ args => args.contains (Operand.reg slot)
  | _ => false

/-- Constraint on the external-call axiomatization: a call that does not
receive slot `slot`'s address leaves that slot's contents unchanged (true of
printf/scanf/exit, which write memory only through pointer arguments). -/
def ExtRespects (ext : ExtCall) (slot : Nat) : Prop :=
  ∀ f args m, (Operand.reg slot) ∉ args → ext f args m slot = m.heap slot

/-! ## Invariant vocabulary used by the theorems -/

/-- The block ids present in a state. -/
def bids (s : CG) : List Nat :=
  s.blocks.map Prod.fst

/-- Shape of a generation step that only appends instructions to the current
block (and may touch variables, registers, globals) — no new blocks, no
builder movement. -/
structure SimpleStep (s s' : CG) : Prop where
  fnEq : s'.curFn = s.curFn
  curEq : s'.curBlock = s.curBlock
  counterEq : s'.blockCounter = s.blockCounter
  funcsEq : s'.funcs = s.funcs
  bidsEq : bids s' = bids s
  untouched : ∀ b, b ≠ s.curBlock → lookupBlock s'.blocks b = lookupBlock s.blocks b

/-- State after `_gen_if` has created the `then` and `merge` blocks. -/
def sAfterMerge (s : CG) : CG :=
  (newBlock (newBlock s).2).2

/-- The elif block pairs created by `_gen_if` for the given clauses. -/
def elifBlocksOf (s : CG) (ecl : List (Expr × List Stmt)) : List (Nat × Nat) :=
  (mkElifBlocks ecl (sAfterMerge s)).1

/-- State after `_gen_if` has created then, merge and all elif blocks. -/
def sAfterElifs (s : CG) (ecl : List (Expr × List Stmt)) : CG :=
  (mkElifBlocks ecl (sAfterMerge s)).2

/-- The optional else block of `_gen_if` (created only for a non-empty else
body), together with the state after its creation. -/
def ifElsePair (s : CG) (ecl : List (Expr × List Stmt)) (eb : List Stmt) :
    Option Nat × CG :=
  match eb with
  | [] => (none, sAfterElifs s ecl)
  | _ :: _ => (some (newBlock (sAfterElifs s ecl)).1, (newBlock (sAfterElifs s ecl)).2)

/-- The if condition's false target: first elif cond block, else the else
block, else merge. -/
def firstFalseOf (s : CG) (ecl : List (Expr × List Stmt)) (eb : List Stmt) : Nat :=
  match elifBlocksOf s ecl with
  | (cb, _) :: _ => cb
  | [] =>
    match (ifElsePair s ecl eb).1 with
    | some b => b
    | none => s.blockCounter + 1

/-- The last elif clause's false target: the else block if present, else
merge. -/
def finalTargetOf (s : CG) (ecl : List (Expr × List Stmt)) (eb : List Stmt) : Nat :=
  match (ifElsePair s ecl eb).1 with
  | some b => b
  | none => s.blockCounter + 1

/-- State in which `_gen_while` evaluates its condition: cond, body and
merge blocks created, the old current block terminated by a branch to cond,
and the builder moved to the cond block. -/
def whileReady (s : CG) : CG :=
  setBlock (appendInstr (newBlock (newBlock (newBlock s).2).2).2 (.br s.blockCounter))
    s.blockCounter

/-- Expected instruction sequence for the parameter slots of a generated
function: per parameter an `alloca` and a store of the incoming argument,
with consecutive result registers. -/
def paramInstrs : List String → Nat → Nat → List Instr
  | [], _, _ => []
  | p :: rest, i, r =>
    .alloca r p :: .store (.farg i) (.reg r) :: paramInstrs rest (i + 1) (r + 1)

/-- The generator state of `_gen_function` right after the new IR function
and its entry block are created and the builder is moved there with an empty
variable table, before the parameter copies. -/
def fnBase (s : CG) (fname : String) : CG :=
  { (newBlock { s with funcs := s.funcs ++ [(fname, [])], curFn := s.funcs.length }).2 with
      curBlock := (newBlock { s with funcs := s.funcs ++ [(fname, [])], curFn := s.funcs.length }).1,
      vars := [] }

/-- The generator state in which a function body is lowered
(`_gen_function` up to and including the parameter copies): new IR function,
fresh entry block, builder on it, empty variable table populated only with
the parameter slots. -/
def fnEntry (s : CG) (fname : String) (params : List String) : CG :=
  genParams params 0 (fnBase s fname)

/-- The generator state right before the first top-level statement of a
program is lowered: a fresh generator in which `generate` has created `main`
and its entry block (id 0). -/
def mainEntry : CG :=
  { vars := []
    stringCounter := 0
    regCounter := 0
    blockCounter := 1
    blocks := [(0, [])]
    funcs := [("main", [0])]
    globals := []
    curFn := 0
    curBlock := 0 }

/-- The false target of an elif clause's conditional branch: the next
clause's cond block if any, otherwise the loop's final target. -/
def nextTarget (fT : Nat) : List (Nat × Nat) → Nat
  | (cb2, _) :: _ => cb2
  | [] => fT

/-- The shared tail of `_gen_print` for non-string values (codegen.py
169-176): make the `"%lld\n"` format global, `gep` it, and call `printf`
with the lowered value. -/
def printIntTail (value : Operand) (s₁ : CG) : CG :=
  let fmt := createGlobalString s₁ "%lld\n"
  let fp := freshReg fmt.2
  let s₂ := appendInstr fp.2 (.gep fp.1 (.globalStr fmt.1))
  let cp := freshReg s₂
  appendInstr cp.2 (.call cp.1 "printf" [.reg fp.1, value])

/-- The string-literal arm of `_gen_print` (codegen.py 160-168): make the
`"%s\n"` format and the content globals, `gep` both, and call `printf`. -/
def printStrTail (content : String) (s : CG) : CG :=
  let fmt := createGlobalString s "%s\n"
  let fp := freshReg fmt.2
  let s₁ := appendInstr fp.2 (.gep fp.1 (.globalStr fmt.1))
  let sv := createGlobalString s₁ content
  let sp := freshReg sv.2
  let s₂ := appendInstr sp.2 (.gep sp.1 (.globalStr sv.1))
  let cp := freshReg s₂
  appendInstr cp.2 (.call cp.1 "printf" [.reg fp.1, .reg sp.1])

/-- The shared tail of `_gen_input` (codegen.py 190-197): make the `"%lld"`
format global, `gep` it, and call `scanf` with the variable's slot. -/
def inputTail (slot : Nat) (sIn : CG) : CG :=
  let fmt := createGlobalString sIn "%lld"
  let fp := freshReg fmt.2
  let s₂ := appendInstr fp.2 (.gep fp.1 (.globalStr fmt.1))
  let cp := freshReg s₂
  appendInstr cp.2 (.call cp.1 "scanf" [.reg fp.1, .reg slot])

/-! Theorems begin here. -/

/-! Auxiliary length lemmas: each loop iteration consumes at least one
character. -/

theorem length_dropWhile_le' (p : Char → Bool) (l : List Char) :
    (l.dropWhile p).length ≤ l.length := by
  induction l with
  | nil => simp [List.dropWhile]
  | cons a as ih =>
    simp only [List.dropWhile]
    cases p a <;> simp <;> omega

theorem takeNumTail_rest_le (l : List Char) : (takeNumTail l).2.length ≤ l.length := by
  have h1 : (l.dropWhile Char.isDigit).length ≤ l.length := length_dropWhile_le' _ l
  unfold takeNumTail
  split
  · rename_i r2 heq
    rw [heq] at h1
    simp only [List.length_cons] at h1
    have h2 : (r2.dropWhile Char.isDigit).length ≤ r2.length := length_dropWhile_le' _ r2
    by_cases hfr : r2.takeWhile Char.isDigit = []
    · rw [if_pos hfr]
      simp only
      rw [heq]
      simp only [List.length_cons]
      omega
    · rw [if_neg hfr]
      simp only
      omega
  · exact h1

theorem takeNumTail_rest_lt (c : Char) (cs : List Char) (hc : c.isDigit = true) :
    (takeNumTail (c :: cs)).2.length ≤ cs.length := by
  have hdrop : (c :: cs).dropWhile Char.isDigit = cs.dropWhile Char.isDigit := by
    simp [List.dropWhile, hc]
  have h1 : (cs.dropWhile Char.isDigit).length ≤ cs.length := length_dropWhile_le' _ cs
  unfold takeNumTail
  rw [hdrop]
  split
  · rename_i r2 heq
    rw [heq] at h1
    simp only [List.length_cons] at h1
    have h2 : (r2.dropWhile Char.isDigit).length ≤ r2.length := length_dropWhile_le' _ r2
    by_cases hfr : r2.takeWhile Char.isDigit = []
    · rw [if_pos hfr]
      simp only
      rw [heq]
      simp only [List.length_cons]
      omega
    · rw [if_neg hfr]
      simp only
      omega
  · simp only
    omega

theorem takeNumber_rest_le (c : Char) (cs : List Char)
    (h : c.isDigit = true ∨ c = '-') :
    (takeNumber (c :: cs)).2.length ≤ cs.length := by
  unfold takeNumber
  split
  · rename_i rest heq
    injection heq with h1 h2
    subst h2
    exact takeNumTail_rest_le cs
  · rename_i x1 hne
    have hcm : c ≠ '-' := by
      intro h'
      exact hne cs (by rw [h'])
    have hc : c.isDigit = true := by
      rcases h with h | h
      · exact h
      · exact absurd h hcm
    exact takeNumTail_rest_lt c cs hc

theorem exprStep_rest_length (c : Char) (cs : List Char) (line : Nat)
    (rest : List Char) (h : (exprStep c cs line).restOf = some rest) :
    rest.length ≤ cs.length := by
  unfold exprStep at h
  by_cases h1 : isExprSpace c = true
  · rw [if_pos h1] at h
    simp only [StepRes.restOf, Option.some.injEq] at h
    subst h
    exact Nat.le_refl _
  · rw [if_neg h1] at h
    by_cases h2 : kwPre neqKw (c :: cs) = true
    · rw [if_pos h2] at h
      simp only [StepRes.restOf, Option.some.injEq] at h
      subst h
      rw [List.length_drop]
      simp only [List.length_cons]
      have hk : neqKw.length = 8 := rfl
      omega
    · rw [if_neg h2] at h
      by_cases h3 : kwPre eqKw (c :: cs) = true
      · rw [if_pos h3] at h
        simp only [StepRes.restOf, Option.some.injEq] at h
        subst h
        rw [List.length_drop]
        simp only [List.length_cons]
        have hk : eqKw.length = 4 := rfl
        omega
      · rw [if_neg h3] at h
        by_cases h4 : kwPre gtKw (c :: cs) = true
        · rw [if_pos h4] at h
          simp only [StepRes.restOf, Option.some.injEq] at h
          subst h
          rw [List.length_drop]
          simp only [List.length_cons]
          have hk : gtKw.length = 4 := rfl
          omega
        · rw [if_neg h4] at h
          by_cases h5 : kwPre ltKw (c :: cs) = true
          · rw [if_pos h5] at h
            simp only [StepRes.restOf, Option.some.injEq] at h
            subst h
            rw [List.length_drop]
            simp only [List.length_cons]
            have hk : ltKw.length = 5 := rfl
            omega
          · rw [if_neg h5] at h
            by_cases h6 : c = '「'
            · rw [if_pos h6] at h
              cases hd : cs.dropWhile (fun x => x ≠ '」') with
              | nil =>
                rw [hd] at h
                simp [StepRes.restOf] at h
              | cons x r =>
                rw [hd] at h
                simp only [StepRes.restOf, Option.some.injEq] at h
                subst h
                have hdl : (cs.dropWhile (fun x => x ≠ '」')).length ≤ cs.length :=
                  length_dropWhile_le' _ cs
                rw [hd] at hdl
                simp only [List.length_cons] at hdl
                omega
            · rw [if_neg h6] at h
              by_cases h7 : (c.isDigit || (c = '-' && headIsDigit cs)) = true
              · rw [if_pos h7] at h
                simp only [StepRes.restOf, Option.some.injEq] at h
                subst h
                apply takeNumber_rest_le c cs
                rcases Bool.or_eq_true_iff.mp h7 with hd | hd
                · exact Or.inl hd
                · have := Bool.and_eq_true_iff.mp hd
                  exact Or.inr (of_decide_eq_true this.1)
              · rw [if_neg h7] at h
                by_cases h8 : c = '%'
                · rw [if_pos h8] at h
                  simp only [StepRes.restOf, Option.some.injEq] at h
                  subst h
                  exact Nat.le_refl _
                · rw [if_neg h8] at h
                  by_cases h9 : c = '('
                  · rw [if_pos h9] at h
                    simp only [StepRes.restOf, Option.some.injEq] at h
                    subst h
                    exact Nat.le_refl _
                  · rw [if_neg h9] at h
                    by_cases h10 : c = ')'
                    · rw [if_pos h10] at h
                      simp only [StepRes.restOf, Option.some.injEq] at h
                      subst h
                      exact Nat.le_refl _
                    · rw [if_neg h10] at h
                      by_cases h11 : isIdentStartCh c = true
                      · rw [if_pos h11] at h
                        simp only [StepRes.restOf, Option.some.injEq] at h
                        subst h
                        exact length_dropWhile_le' _ cs
                      · rw [if_neg h11] at h
                        simp [StepRes.restOf] at h

theorem exprStep_emit_length (c : Char) (cs : List Char) (line : Nat) (t : Token)
    (rest : List Char) (h : exprStep c cs line = .emit t rest) :
    rest.length ≤ cs.length :=
  exprStep_rest_length c cs line rest (by rw [h]; rfl)

theorem exprStep_skip_length (c : Char) (cs : List Char) (line : Nat)
    (rest : List Char) (h : exprStep c cs line = .skipWs rest) :
    rest.length ≤ cs.length :=
  exprStep_rest_length c cs line rest (by rw [h]; rfl)

/-- One-step unfolding of the scanner on a non-empty remainder. -/
theorem exprScan_cons (fuel : Nat) (c : Char) (cs : List Char) (line : Nat) :
    exprScan (fuel + 1) (c :: cs) line =
      match exprStep c cs line with
      | .fail e => .error e
      | .skipWs rest => exprScan fuel rest line
      | .emit t rest => (exprScan fuel rest line).map (fun ts => t :: ts) := rfl

/-- Fuel irrelevance: any bound at least the remaining length produces the
same scan result, so `tokenizeExpr`'s choice of the input's length is
innocuous. -/
theorem exprScan_fuel (f₁ : Nat) : ∀ (f₂ : Nat) (cs : List Char) (line : Nat),
    cs.length ≤ f₁ → cs.length ≤ f₂ → exprScan f₁ cs line = exprScan f₂ cs line := by
  induction f₁ with
  | zero =>
    intro f₂ cs line hl1 hl2
    have : cs = [] := List.length_eq_zero.mp (Nat.le_zero.mp hl1)
    subst this
    cases f₂ <;> rfl
  | succ f ih =>
    intro f₂ cs line hl1 hl2
    cases cs with
    | nil => cases f₂ <;> rfl
    | cons c cs' =>
      cases f₂ with
      | zero => simp at hl2
      | succ g =>
        rw [exprScan_cons, exprScan_cons]
        simp only [List.length_cons] at hl1 hl2
        cases hstep : exprStep c cs' line with
        | fail e => rfl
        | skipWs rest =>
          have hr := exprStep_skip_length c cs' line rest hstep
          exact ih g rest line (by omega) (by omega)
        | emit t rest =>
          have hr := exprStep_emit_length c cs' line t rest hstep
          exact congrArg (Except.map fun ts => t :: ts) (ih g rest line (by omega) (by omega))

theorem kwPre_append (l t : List Char) : kwPre l (l ++ t) = true := by
  induction l with
  | nil => rfl
  | cons a as ih => simpa [kwPre] using ih

/-! ## Claims about the expression sub-lexer (C2, C7) -/

/-- C2: the claim says an unterminated `「` string literal makes tokenization
fail with a `LexerError` carrying the line number.  The code instead lets
`str.index` raise a bare `ValueError` (no line number): on the expression
part `「abc` of the source line `「abc しゃあっ`, the sub-lexer produced by
the code yields `ValueError("substring not found")`, not a `LexerError`. -/
theorem c2_unterminated_string_is_valueerror_not_lexererror :
    tokenizeExpr "「abc" 1 = Except.error (LexErr.valueError "substring not found") ∧
      (∀ msg line, LexErr.valueError "substring not found" ≠ LexErr.lexerError msg line) := by
  constructor
  · rfl
  · intro msg line h
    cases h

/-- C7 counterexample: the expression string `xガチンコじゃない` contains the
phrase ガチンコじゃない, yet the sub-lexer emits no NEQ token at all — the
greedy identifier matcher (whose character class contains the katakana and
hiragana of the phrase) absorbs it into a single IDENT token. -/
theorem c7_counterexample_ident_absorbs_neq :
    tokenizeExpr "xガチンコじゃない" 1 =
      Except.ok [Token.mk TokenType.IDENT "xガチンコじゃない" 1] ∧
      TokenType.IDENT ≠ TokenType.NEQ := by
  constructor
  · rfl
  · intro h
    cases h

/-- C7 (amended): whenever the sub-lexer's scanning position sits at an
occurrence of ガチンコじゃない, it emits a single NEQ token spanning the
whole phrase and resumes immediately after it — never an EQ token followed
by residue — because the NEQ keyword is tried before the EQ keyword it
contains.  (The claim as stated fails only when the phrase never becomes the
scan position: it can be absorbed into an enclosing identifier or string
literal, as the counterexample shows.) -/
theorem c7_neq_before_eq (rest : List Char) (line : Nat) :
    tokenizeExpr (String.mk (neqKw ++ rest)) line =
      (tokenizeExpr (String.mk rest) line).map
        (fun ts => Token.mk TokenType.NEQ neqStr line :: ts) := by
  have h1 : tokenizeExpr (String.mk (neqKw ++ rest)) line
      = (exprScan (rest.length + 7) rest line).map
          (fun ts => Token.mk TokenType.NEQ neqStr line :: ts) := rfl
  rw [h1]
  exact congrArg (Except.map fun ts => Token.mk TokenType.NEQ neqStr line :: ts)
    (exprScan_fuel (rest.length + 7) rest.length rest line (by omega) (Nat.le_refl _))

/-! ## Primitive lemmas about the generator state operations -/

theorem lookupBlock_updateBlocks_self (bl : List (Nat × List Instr)) (bid : Nat) (i : Instr) :
    lookupBlock (updateBlocks bl bid i) bid = (lookupBlock bl bid).map (fun l => l ++ [i]) := by
  induction bl with
  | nil => rfl
  | cons hd rest ih =>
    obtain ⟨b, l⟩ := hd
    by_cases hb : b = bid
    · subst hb
      simp [updateBlocks, lookupBlock]
    · simp [updateBlocks, lookupBlock, hb, ih]

theorem lookupBlock_updateBlocks_ne (bl : List (Nat × List Instr)) (bid b : Nat) (i : Instr)
    (h : b ≠ bid) :
    lookupBlock (updateBlocks bl bid i) b = lookupBlock bl b := by
  induction bl with
  | nil => rfl
  | cons hd rest ih =>
    obtain ⟨b', l⟩ := hd
    by_cases hb : b' = bid
    · subst hb
      simp [updateBlocks, lookupBlock, Ne.symm h]
    · simp [updateBlocks, lookupBlock, hb, ih]

theorem map_fst_updateBlocks (bl : List (Nat × List Instr)) (bid : Nat) (i : Instr) :
    (updateBlocks bl bid i).map Prod.fst = bl.map Prod.fst := by
  induction bl with
  | nil => rfl
  | cons hd rest ih =>
    obtain ⟨b, l⟩ := hd
    by_cases hb : b = bid
    · subst hb
      simp [updateBlocks]
    · simp [updateBlocks, hb, ih]

theorem lookupBlock_append (bl bl₂ : List (Nat × List Instr)) (b : Nat) :
    lookupBlock (bl ++ bl₂) b =
      match lookupBlock bl b with
      | some l => some l
      | none => lookupBlock bl₂ b := by
  induction bl with
  | nil => rfl
  | cons hd rest ih =>
    obtain ⟨b', l⟩ := hd
    by_cases hb : b' = b
    · subst hb
      simp [lookupBlock]
    · simp [lookupBlock, hb, ih]

theorem lookupBlock_none_iff (bl : List (Nat × List Instr)) (b : Nat) :
    lookupBlock bl b = none ↔ b ∉ bl.map Prod.fst := by
  induction bl with
  | nil => simp [lookupBlock]
  | cons hd rest ih =>
    obtain ⟨b', l⟩ := hd
    by_cases hb : b' = b
    · subst hb
      simp [lookupBlock]
    · simp [lookupBlock, hb, ih, Ne.symm hb]

theorem lookupBlock_isSome_of_mem (bl : List (Nat × List Instr)) (b : Nat)
    (h : b ∈ bl.map Prod.fst) : (lookupBlock bl b).isSome = true := by
  cases hl : lookupBlock bl b with
  | some l => rfl
  | none => exact absurd h ((lookupBlock_none_iff bl b).mp hl)

theorem bids_appendInstr (s : CG) (i : Instr) : bids (appendInstr s i) = bids s := by
  simp [appendInstr, bids, map_fst_updateBlocks]

theorem appendInstr_simple (s : CG) (i : Instr) : SimpleStep s (appendInstr s i) := by
  refine ⟨rfl, rfl, rfl, rfl, bids_appendInstr s i, ?_⟩
  intro b hb
  exact lookupBlock_updateBlocks_ne s.blocks s.curBlock b i hb

theorem simpleStep_refl (s : CG) : SimpleStep s s :=
  ⟨rfl, rfl, rfl, rfl, rfl, fun _ _ => rfl⟩

theorem simpleStep_trans {s₁ s₂ s₃ : CG} (h₁ : SimpleStep s₁ s₂) (h₂ : SimpleStep s₂ s₃) :
    SimpleStep s₁ s₃ := by
  refine ⟨h₂.fnEq.trans h₁.fnEq, h₂.curEq.trans h₁.curEq, h₂.counterEq.trans h₁.counterEq,
    h₂.funcsEq.trans h₁.funcsEq, h₂.bidsEq.trans h₁.bidsEq, ?_⟩
  intro b hb
  have hb₂ : b ≠ s₂.curBlock := by
    rw [h₁.curEq]
    exact hb
  exact (h₂.untouched b hb₂).trans (h₁.untouched b hb)

/-- `appendInstr` to the current block then looking that block up. -/
theorem lookupBlock_appendInstr_cur (s : CG) (i : Instr) :
    lookupBlock (appendInstr s i).blocks s.curBlock =
      (lookupBlock s.blocks s.curBlock).map (fun l => l ++ [i]) :=
  lookupBlock_updateBlocks_self s.blocks s.curBlock i

theorem append1_simple (s : CG) (n : Nat) (i : Instr) :
    SimpleStep s (appendInstr { s with regCounter := n } i) := by
  refine ⟨rfl, rfl, rfl, rfl, ?_, ?_⟩
  · exact bids_appendInstr _ _
  · intro b hb
    exact lookupBlock_updateBlocks_ne s.blocks s.curBlock b i hb

theorem append2_simple (s : CG) (n : Nat) (i : Instr) (n' : Nat) (j : Instr) :
    SimpleStep s
      (appendInstr { appendInstr { s with regCounter := n } i with regCounter := n' } j) :=
  simpleStep_trans (append1_simple s n i)
    (append1_simple (appendInstr { s with regCounter := n } i) n' j)

theorem appendG_simple (s : CG) (n : Nat) (gl : List (String × String)) (m : Nat) (i : Instr) :
    SimpleStep s
      (appendInstr { { s with stringCounter := n, globals := gl } with regCounter := m } i) := by
  refine ⟨rfl, rfl, rfl, rfl, ?_, ?_⟩
  · exact bids_appendInstr _ _
  · intro b hb
    exact lookupBlock_updateBlocks_ne s.blocks s.curBlock b i hb

/-- Expression lowering is a "simple" step: it only appends instructions to
the builder's current block, and it never touches the variable table. -/
theorem genExpr_frame (e : Expr) (s : CG) :
    SimpleStep s (genExpr e s).state ∧ (genExpr e s).state.vars = s.vars := by
  induction e generalizing s with
  | intLit v lin => exact ⟨simpleStep_refl s, rfl⟩
  | floatLit v lin => exact ⟨simpleStep_refl s, rfl⟩
  | strLit v lin =>
    exact ⟨appendG_simple s _ _ _ _, rfl⟩
  | ident x lin =>
    unfold genExpr
    cases hl : lookupA s.vars x with
    | none => exact ⟨simpleStep_refl s, rfl⟩
    | some slot => exact ⟨append1_simple s _ _, rfl⟩
  | binOp op l r lin ihl ihr =>
    unfold genExpr
    split
    · rename_i e1 s1 hl
      have h := ihl s
      rw [hl] at h
      exact h
    · rename_i a s1 hl
      have h1 := ihl s
      rw [hl] at h1
      split
      · rename_i e2 s2 hr
        have h2 := ihr s1
        rw [hr] at h2
        exact ⟨simpleStep_trans h1.1 h2.1, h2.2.trans h1.2⟩
      · rename_i b s2 hr
        have h2 := ihr s1
        rw [hr] at h2
        have hbase : SimpleStep s s2 := simpleStep_trans h1.1 h2.1
        have hvars : s2.vars = s.vars := h2.2.trans h1.2
        by_cases hop1 : op = "=="
        · rw [if_pos hop1]
          exact ⟨simpleStep_trans hbase (append2_simple s2 _ _ _ _), hvars⟩
        · rw [if_neg hop1]
          by_cases hop2 : op = "!="
          · rw [if_pos hop2]
            exact ⟨simpleStep_trans hbase (append2_simple s2 _ _ _ _), hvars⟩
          · rw [if_neg hop2]
            by_cases hop3 : op = ">"
            · rw [if_pos hop3]
              exact ⟨simpleStep_trans hbase (append2_simple s2 _ _ _ _), hvars⟩
            · rw [if_neg hop3]
              by_cases hop4 : op = "<"
              · rw [if_pos hop4]
                exact ⟨simpleStep_trans hbase (append2_simple s2 _ _ _ _), hvars⟩
              · rw [if_neg hop4]
                by_cases hop5 : op = "%"
                · rw [if_pos hop5]
                  exact ⟨simpleStep_trans hbase (append1_simple s2 _ _), hvars⟩
                · rw [if_neg hop5]
                  exact ⟨hbase, hvars⟩

/-! ## Sequencing lemmas for statement lists -/

theorem genStmts_cons (st : Stmt) (rest : List Stmt) (s : CG) :
    genStmts (st :: rest) s =
      match genStmt st s with
      | .err e s' => .err e s'
      | .ok _ s' => genStmts rest s' := rfl

theorem genStmts_append (l1 l2 : List Stmt) (s : CG) :
    genStmts (l1 ++ l2) s =
      match genStmts l1 s with
      | .err e s' => .err e s'
      | .ok _ s' => genStmts l2 s' := by
  induction l1 generalizing s with
  | nil => rfl
  | cons st rest ih =>
    rw [List.cons_append, genStmts_cons, genStmts_cons]
    cases h : genStmt st s with
    | err e s' => rfl
    | ok a s' => exact ih s'

/-- Unfolding of `generate`: after the fixed `main`/entry-block setup (state
`mainEntry`), lower the statements, then add the final `ret i32 0` if
needed. -/
theorem generate_unfold (p : Program) :
    generate p =
      match genStmts p.statements mainEntry with
      | .err e s' => .err e s'
      | .ok _ s₃ =>
        .ok () (if blockTerminated s₃ then s₃ else appendInstr s₃ (.ret 32 (.const 32 0))) := rfl

/-! ## Claim C3: Increment/Decrement of an undeclared name -/

/-- C3: if an Increment or Decrement statement names a variable that is not
in the variable table once generation reaches it, the whole code generation
fails with a `CodeGenError` whose line is the statement's source line — the
statements after it (which may well assign the name) are never reached. -/
theorem c3_increment_undeclared_fails (x : String) (lin : Nat) (st : Stmt)
    (hst : st = .increment x lin ∨ st = .decrement x lin)
    (pre post : List Stmt) (p : Program) (hp : p.statements = pre ++ st :: post)
    (s₁ : CG) (hpre : genStmts pre mainEntry = .ok () s₁)
    (hx : lookupA s₁.vars x = none) :
    generate p = .err ⟨"未定義の変数: " ++ x, lin⟩ s₁ := by
  have hstep : genStmt st s₁ = .err ⟨"未定義の変数: " ++ x, lin⟩ s₁ := by
    rcases hst with h | h
    · subst h
      unfold genStmt
      rw [hx]
    · subst h
      unfold genStmt
      rw [hx]
  have h2 : genStmts p.statements mainEntry = .err ⟨"未定義の変数: " ++ x, lin⟩ s₁ := by
    rw [hp, genStmts_append, hpre]
    show genStmts (st :: post) s₁ = _
    rw [genStmts_cons, hstep]
  rw [generate_unfold, h2]

/-- C3 witness: `x 進化したと言うてくれや` on line 1 followed by the
assignment `5 を継ぐ x` on line 2 still fails, citing line 1. -/
theorem c3_witness :
    generate ⟨[Stmt.increment "x" 1, Stmt.assign "x" (Expr.intLit 5 2) 2]⟩ =
      .err ⟨"未定義の変数: " ++ "x", 1⟩ mainEntry :=
  c3_increment_undeclared_fails "x" 1 (Stmt.increment "x" 1) (Or.inl rfl)
    [] [Stmt.assign "x" (Expr.intLit 5 2) 2] _ rfl mainEntry rfl rfl

/-! ## Claim C9: Assign evaluates its right-hand side first -/

/-- C9: in an Assign statement the right-hand side is evaluated before the
destination slot is created: if the RHS raises, the assignment raises the
same error and no slot has been added to the variable table; in particular
assigning to a not-yet-existing `x` an expression reading `x` itself raises
`CodeGenError` and leaves the whole generator state untouched. -/
theorem c9_assign_rhs_before_slot (x : String) (e : Expr) (lin : Nat) (s : CG)
    (hx : lookupA s.vars x = none) :
    (∀ er s', genExpr e s = .err er s' →
        genStmt (.assign x e lin) s = .err er s' ∧ s'.vars = s.vars) ∧
      (∀ lin', genStmt (.assign x (.ident x lin') lin) s =
        .err ⟨"未定義の変数: " ++ x, lin'⟩ s) := by
  constructor
  · intro er s' herr
    constructor
    · unfold genStmt
      rw [herr]
    · have h := (genExpr_frame e s).2
      rw [herr] at h
      exact h
  · intro lin'
    have hid : genExpr (.ident x lin') s = .err ⟨"未定義の変数: " ++ x, lin'⟩ s := by
      unfold genExpr
      rw [hx]
    unfold genStmt
    rw [hid]

/-- C9 witness: `x を継ぐ x` with `x` undeclared, from the fresh `main`
state, fails and leaves the state exactly `mainEntry`. -/
theorem c9_witness :
    genStmt (.assign "x" (.ident "x" 3) 3) mainEntry =
      .err ⟨"未定義の変数: " ++ "x", 3⟩ mainEntry :=
  (c9_assign_rhs_before_slot "x" (.ident "x" 3) 3 mainEntry rfl).2 3

/-! ## Claim C8: deterministic compilation -/

/-- C8: two separately constructed code generators start from the same
initial state (string-constant counter at zero in particular), and the whole
generator is a pure function of program and state, so compiling the same
program twice produces syntactically identical modules — in particular IR
identical up to (here: including) the deterministic `.str.N` names. -/
theorem c8_two_fresh_generators_agree (p : Program) (s₁ s₂ : CG)
    (h₁ : s₁ = initCG) (h₂ : s₂ = initCG) :
    generateFrom s₁ p = generateFrom s₂ p ∧ s₁.stringCounter = 0 := by
  subst h₁
  subst h₂
  exact ⟨rfl, rfl⟩

/-- C8 witness at a concrete two-statement program with a string constant. -/
theorem c8_witness :
    generateFrom initCG ⟨[Stmt.printS (Expr.strLit "Hello" 1) 1]⟩ =
        generateFrom initCG ⟨[Stmt.printS (Expr.strLit "Hello" 1) 1]⟩ ∧
      initCG.stringCounter = 0 :=
  c8_two_fresh_generators_agree ⟨[Stmt.printS (Expr.strLit "Hello" 1) 1]⟩ initCG initCG rfl rfl

/-! ## Straight-line execution lemmas -/

theorem execList_append (ext : ExtCall) (a b : List Instr) (m : Machine) :
    execList ext (a ++ b) m = execList ext b (execList ext a m) := by
  simp [execList, List.foldl_append]

theorem execInstr_preserves_slot (ext : ExtCall) (slot : Nat)
    (hext : ExtRespects ext slot) (i : Instr) (hi : writesSlot slot i = false)
    (m : Machine) : (execInstr ext i m).heap slot = m.heap slot := by
  cases i with
  | alloca r n => rfl
  | store v p =>
    cases p with
    | const w z => rfl
    | farg k => rfl
    | globalStr g => rfl
    | reg sl =>
      have hne : sl ≠ slot := by
        intro h
        subst h
        simp [writesSlot] at hi
      simp [execInstr, updF, Ne.symm hne]
  | load r p =>
    cases p with
    | const w z => rfl
    | farg k => rfl
    | globalStr g => rfl
    | reg sl => rfl
  | icmp r pr a b => rfl
  | zext r a => rfl
  | srem r a b => rfl
  | add r a b => rfl
  | sub r a b => rfl
  | gep r g => rfl
  | call r f args =>
    have hmem : Operand.reg slot ∉ args := by
      intro hm
      rw [show writesSlot slot (.call r f args) = args.contains (Operand.reg slot) from rfl,
        show args.contains (Operand.reg slot) = args.elem (Operand.reg slot) from rfl,
        List.elem_eq_true_of_mem hm] at hi
      cases hi
    exact hext f args m hmem
  | br t => rfl
  | condBr c t f => rfl
  | ret w v => rfl

theorem execList_preserves_slot (ext : ExtCall) (slot : Nat)
    (hext : ExtRespects ext slot) (L : List Instr)
    (hL : ∀ i ∈ L, writesSlot slot i = false) (m : Machine) :
    (execList ext L m).heap slot = m.heap slot := by
  induction L generalizing m with
  | nil => rfl
  | cons i rest ih =>
    have h1 : execList ext (i :: rest) m = execList ext rest (execInstr ext i m) := rfl
    rw [h1, ih (fun j hj => hL j (List.mem_cons_of_mem i hj)) (execInstr ext i m)]
    exact execInstr_preserves_slot ext slot hext i (hL i (List.mem_cons_self i rest)) m

/-! ## Claim C6: Declare zero-initializes -/

/-- C6: lowering a Declare appends exactly an `alloca` and a store of the
i64 constant 0 to the current block and binds the name to the new slot; and
semantically, after those two instructions, any later load of that slot that
is separated from the declaration only by instructions that do not write the
slot (no store to it, no external call receiving its address) yields exactly
0 — reading the variable between its declaration and its first assignment
gives 0. -/
theorem c6_declare_zero_init (x : String) (lin : Nat) (s s' : CG)
    (h : genStmt (.declare x lin) s = .ok () s') :
    (lookupA s'.vars x = some s.regCounter ∧
      s'.curBlock = s.curBlock ∧
      lookupBlock s'.blocks s.curBlock =
        (lookupBlock s.blocks s.curBlock).map
          (fun l => l ++ [.alloca s.regCounter x, .store (.const 64 0) (.reg s.regCounter)])) ∧
    (∀ (ext : ExtCall) (m : Machine) (L : List Instr) (r : Nat),
      ExtRespects ext s.regCounter →
      (∀ i ∈ L, writesSlot s.regCounter i = false) →
      (execList ext
        ([.alloca s.regCounter x, .store (.const 64 0) (.reg s.regCounter)] ++ L ++
          [.load r (.reg s.regCounter)]) m).regs r = 0) := by
  constructor
  · have hs' : s' =
        { appendInstr (appendInstr { s with regCounter := s.regCounter + 1 }
            (.alloca s.regCounter x)) (.store (.const 64 0) (.reg s.regCounter)) with
          vars := (x, s.regCounter) ::
            (appendInstr (appendInstr { s with regCounter := s.regCounter + 1 }
              (.alloca s.regCounter x)) (.store (.const 64 0) (.reg s.regCounter))).vars } := by
      have hcomp : genStmt (.declare x lin) s = .ok ()
          { appendInstr (appendInstr { s with regCounter := s.regCounter + 1 }
              (.alloca s.regCounter x)) (.store (.const 64 0) (.reg s.regCounter)) with
            vars := (x, s.regCounter) ::
              (appendInstr (appendInstr { s with regCounter := s.regCounter + 1 }
                (.alloca s.regCounter x)) (.store (.const 64 0) (.reg s.regCounter))).vars } := rfl
      rw [hcomp] at h
      injection h with h1 h2
      exact h2.symm
    subst hs'
    refine ⟨by simp [lookupA], rfl, ?_⟩
    rw [show (appendInstr (appendInstr { s with regCounter := s.regCounter + 1 }
        (.alloca s.regCounter x)) (.store (.const 64 0) (.reg s.regCounter))).blocks =
        updateBlocks (updateBlocks s.blocks s.curBlock (.alloca s.regCounter x))
          s.curBlock (.store (.const 64 0) (.reg s.regCounter)) from rfl]
    rw [lookupBlock_updateBlocks_self, lookupBlock_updateBlocks_self]
    cases lookupBlock s.blocks s.curBlock with
    | none => rfl
    | some l => simp
  · intro ext m L r hext hL
    rw [execList_append, execList_append]
    have hheap : (execList ext [.alloca s.regCounter x,
        .store (.const 64 0) (.reg s.regCounter)] m).heap s.regCounter = 0 := by
      simp [execList, execInstr, evalOp, updF]
    have hkeep := execList_preserves_slot ext s.regCounter hext L hL
      (execList ext [.alloca s.regCounter x, .store (.const 64 0) (.reg s.regCounter)] m)
    rw [hheap] at hkeep
    have hfin : ∀ M : Machine,
        (execList ext [Instr.load r (Operand.reg s.regCounter)] M).regs r = M.heap s.regCounter := by
      intro M
      simp [execList, execInstr, updF]
    rw [hfin]
    exact hkeep

/-- C6 witness: concrete declaration of `x` from the fresh `main` state,
with an intervening printf call that does not touch the slot, and the
trivial external-call model. -/
theorem c6_witness :
    ((lookupA (genStmt (.declare "x" 1) mainEntry).state.vars "x" = some mainEntry.regCounter ∧
        (genStmt (.declare "x" 1) mainEntry).state.curBlock = mainEntry.curBlock ∧
        lookupBlock (genStmt (.declare "x" 1) mainEntry).state.blocks mainEntry.curBlock =
          (lookupBlock mainEntry.blocks mainEntry.curBlock).map
            (fun l => l ++ [.alloca mainEntry.regCounter "x",
              .store (.const 64 0) (.reg mainEntry.regCounter)])) ∧
      (∀ (ext : ExtCall) (m : Machine) (L : List Instr) (r : Nat),
        ExtRespects ext mainEntry.regCounter →
        (∀ i ∈ L, writesSlot mainEntry.regCounter i = false) →
        (execList ext
          ([.alloca mainEntry.regCounter "x",
            .store (.const 64 0) (.reg mainEntry.regCounter)] ++ L ++
            [.load r (.reg mainEntry.regCounter)]) m).regs r = 0)) :=
  c6_declare_zero_init "x" 1 mainEntry (genStmt (.declare "x" 1) mainEntry).state rfl

/-! ## Claim C5: function bodies and their isolated scope -/

theorem genParams_cons (p : String) (rest : List String) (i : Nat) (s : CG) :
    genParams (p :: rest) i s = genParams rest (i + 1)
      { appendInstr (appendInstr { s with regCounter := s.regCounter + 1 }
          (.alloca s.regCounter p)) (.store (.farg i) (.reg s.regCounter)) with
        vars := (p, s.regCounter) ::
          (appendInstr (appendInstr { s with regCounter := s.regCounter + 1 }
            (.alloca s.regCounter p)) (.store (.farg i) (.reg s.regCounter))).vars } := rfl

theorem genParams_simple : ∀ (ps : List String) (i : Nat) (s : CG),
    SimpleStep s (genParams ps i s) := by
  intro ps
  induction ps with
  | nil => intro i s; exact simpleStep_refl s
  | cons p rest ih =>
    intro i s
    rw [genParams_cons]
    refine simpleStep_trans ?_ (ih (i + 1) _)
    refine simpleStep_trans (simpleStep_trans (append1_simple s (s.regCounter + 1)
      (.alloca s.regCounter p)) (appendInstr_simple _ (.store (.farg i) (.reg s.regCounter)))) ?_
    exact ⟨rfl, rfl, rfl, rfl, rfl, fun _ _ => rfl⟩

theorem genParams_curBlock : ∀ (ps : List String) (i : Nat) (s : CG),
    (genParams ps i s).curBlock = s.curBlock := by
  intro ps i s
  exact (genParams_simple ps i s).curEq

theorem genParams_keys : ∀ (ps : List String) (i : Nat) (s : CG),
    (genParams ps i s).vars.map Prod.fst = ps.reverse ++ s.vars.map Prod.fst := by
  intro ps
  induction ps with
  | nil => intro i s; simp [genParams]
  | cons p rest ih =>
    intro i s
    rw [genParams_cons, ih (i + 1) _]
    show rest.reverse ++ List.map Prod.fst ((p, s.regCounter) :: s.vars) = _
    simp

theorem genParams_lookup_notmem : ∀ (ps : List String) (x : String) (i : Nat) (s : CG),
    x ∉ ps → lookupA (genParams ps i s).vars x = lookupA s.vars x := by
  intro ps
  induction ps with
  | nil => intro x i s hx; rfl
  | cons p rest ih =>
    intro x i s hx
    rw [genParams_cons, ih x (i + 1) _ (fun hm => hx (List.mem_cons_of_mem p hm))]
    have hpx : ¬ p = x := fun h => hx (h ▸ List.mem_cons_self p rest)
    show lookupA ((p, s.regCounter) :: s.vars) x = lookupA s.vars x
    simp [lookupA, hpx]

theorem genParams_lookup_mem : ∀ (ps : List String) (j : Nat) (hj : j < ps.length)
    (i : Nat) (s : CG), ps.Nodup →
    lookupA (genParams ps i s).vars (ps.get ⟨j, hj⟩) = some (s.regCounter + j) := by
  intro ps
  induction ps with
  | nil =>
    intro j hj
    exact absurd hj (by simp)
  | cons p rest ih =>
    intro j hj i s hnd
    cases j with
    | zero =>
      rw [genParams_cons]
      have hp : p ∉ rest := (List.nodup_cons.mp hnd).1
      rw [show (p :: rest).get ⟨0, hj⟩ = p from rfl]
      rw [genParams_lookup_notmem rest p (i + 1) _ hp]
      show lookupA ((p, s.regCounter) :: s.vars) p = some (s.regCounter + 0)
      simp [lookupA]
    | succ j' =>
      rw [genParams_cons]
      have hj' : j' < rest.length := by
        simp only [List.length_cons] at hj
        omega
      rw [show (p :: rest).get ⟨j' + 1, hj⟩ = rest.get ⟨j', hj'⟩ from rfl]
      rw [ih j' hj' (i + 1) _ (List.nodup_cons.mp hnd).2]
      congr 1
      show s.regCounter + 1 + j' = s.regCounter + (j' + 1)
      omega

theorem genParams_block : ∀ (ps : List String) (i : Nat) (s : CG),
    lookupBlock (genParams ps i s).blocks s.curBlock =
      (lookupBlock s.blocks s.curBlock).map (fun l => l ++ paramInstrs ps i s.regCounter) := by
  intro ps
  induction ps with
  | nil =>
    intro i s
    show lookupBlock s.blocks s.curBlock =
      (lookupBlock s.blocks s.curBlock).map (fun l => l ++ paramInstrs [] i s.regCounter)
    cases h : lookupBlock s.blocks s.curBlock <;> simp [paramInstrs]
  | cons p rest ih =>
    intro i s
    rw [genParams_cons]
    have hih : lookupBlock (genParams rest (i + 1)
        { appendInstr (appendInstr { s with regCounter := s.regCounter + 1 }
            (.alloca s.regCounter p)) (.store (.farg i) (.reg s.regCounter)) with
          vars := (p, s.regCounter) ::
            (appendInstr (appendInstr { s with regCounter := s.regCounter + 1 }
              (.alloca s.regCounter p)) (.store (.farg i) (.reg s.regCounter))).vars }).blocks
          s.curBlock =
        (lookupBlock (updateBlocks (updateBlocks s.blocks s.curBlock
            (.alloca s.regCounter p)) s.curBlock (.store (.farg i) (.reg s.regCounter)))
          s.curBlock).map (fun l => l ++ paramInstrs rest (i + 1) (s.regCounter + 1)) :=
      ih (i + 1) _
    rw [hih, lookupBlock_updateBlocks_self, lookupBlock_updateBlocks_self]
    cases h : lookupBlock s.blocks s.curBlock <;> simp [paramInstrs]

/-- C5: lowering a `Fn` statement (from any state whose next block id is
fresh, true of every reachable state) (i) restores the caller's variable
table and builder position afterwards; (ii) generates the body from the
`fnEntry` state, whose variable table contains exactly the parameters —
nothing inherited — each bound to its own slot, and whose entry block holds
exactly one alloca plus a store of the incoming argument per parameter; and
(iii) appends `ret i64 0` to the body's final block exactly when the body
left it unterminated. -/
theorem c5_function_scope_isolation (fname : String) (params : List String)
    (body : List Stmt) (lin : Nat) (s s' : CG)
    (h : genStmt (.fn fname params body lin) s = .ok () s')
    (hfresh : lookupBlock s.blocks s.blockCounter = none) :
    (s'.vars = s.vars ∧ s'.curFn = s.curFn ∧ s'.curBlock = s.curBlock) ∧
    ((fnEntry s fname params).vars.map Prod.fst = params.reverse ∧
      (∀ x, x ∉ params → lookupA (fnEntry s fname params).vars x = none) ∧
      (∀ j (hj : j < params.length), params.Nodup →
        lookupA (fnEntry s fname params).vars (params.get ⟨j, hj⟩) =
          some (s.regCounter + j)) ∧
      lookupBlock (fnEntry s fname params).blocks (fnEntry s fname params).curBlock =
        some (paramInstrs params 0 s.regCounter)) ∧
    (∀ s₄, genStmts body (fnEntry s fname params) = .ok () s₄ →
      (blockTerminated s₄ = false →
        lookupBlock s'.blocks s₄.curBlock =
          (lookupBlock s₄.blocks s₄.curBlock).map
            (fun l => l ++ [.ret 64 (.const 64 0)])) ∧
      (blockTerminated s₄ = true → s'.blocks = s₄.blocks)) := by
  have hunf : genStmt (.fn fname params body lin) s =
      match genStmts body (fnEntry s fname params) with
      | .err e s2 => .err e s2
      | .ok _ s₄ =>
        .ok () { (if blockTerminated s₄ then s₄
                  else appendInstr s₄ (.ret 64 (.const 64 0))) with
                 curFn := s.curFn, curBlock := s.curBlock, vars := s.vars } := rfl
  rw [hunf] at h
  cases hb : genStmts body (fnEntry s fname params) with
  | err e s2 =>
    rw [hb] at h
    cases h
  | ok a s₄ =>
    rw [hb] at h
    have hs' : s' = { (if blockTerminated s₄ then s₄
        else appendInstr s₄ (.ret 64 (.const 64 0))) with
        curFn := s.curFn, curBlock := s.curBlock, vars := s.vars } := by
      injection h with h1 h2
      exact h2.symm
    refine ⟨?_, ?_, ?_⟩
    · rw [hs']
      exact ⟨rfl, rfl, rfl⟩
    · have hfe : fnEntry s fname params = genParams params 0 (fnBase s fname) := rfl
      refine ⟨?_, ?_, ?_, ?_⟩
      · rw [hfe, genParams_keys]
        simp [fnBase]
      · intro x hx
        rw [hfe, genParams_lookup_notmem params x 0 _ hx]
        rfl
      · intro j hj hnd
        rw [hfe]
        have := genParams_lookup_mem params j hj 0 (fnBase s fname) hnd
        rw [show (fnBase s fname).regCounter = s.regCounter from rfl] at this
        exact this
      · have hcur : (fnEntry s fname params).curBlock = s.blockCounter := by
          rw [hfe, genParams_curBlock]
          rfl
        rw [hcur, hfe]
        have hblk : lookupBlock (genParams params 0 (fnBase s fname)).blocks s.blockCounter =
            (lookupBlock (fnBase s fname).blocks s.blockCounter).map
              (fun l => l ++ paramInstrs params 0 s.regCounter) :=
          genParams_block params 0 (fnBase s fname)
        rw [hblk]
        have hbase : lookupBlock (fnBase s fname).blocks s.blockCounter = some [] := by
          rw [show (fnBase s fname).blocks = s.blocks ++ [(s.blockCounter, [])] from rfl]
          rw [lookupBlock_append, hfresh]
          simp [lookupBlock]
        rw [hbase]
        rfl
    · intro s₅ hb2
      injection hb2 with h1 h2
      subst h2
      constructor
      · intro hterm
        rw [hs']
        rw [show ({ (if blockTerminated s₄ then s₄
            else appendInstr s₄ (.ret 64 (.const 64 0))) with
            curFn := s.curFn, curBlock := s.curBlock, vars := s.vars } : CG).blocks =
          (if blockTerminated s₄ then s₄
            else appendInstr s₄ (.ret 64 (.const 64 0))).blocks from rfl]
        rw [if_neg (by rw [hterm]; exact Bool.false_ne_true)]
        exact lookupBlock_appendInstr_cur s₄ (.ret 64 (.const 64 0))
      · intro hterm
        rw [hs']
        rw [show ({ (if blockTerminated s₄ then s₄
            else appendInstr s₄ (.ret 64 (.const 64 0))) with
            curFn := s.curFn, curBlock := s.curBlock, vars := s.vars } : CG).blocks =
          (if blockTerminated s₄ then s₄
            else appendInstr s₄ (.ret 64 (.const 64 0))).blocks from rfl]
        rw [if_pos hterm]

/-- C5 witness: a one-parameter function with empty body generated from the
fresh `main` state. -/
theorem c5_witness :
    (((genStmt (.fn "f" ["a"] [] 1) mainEntry).state.vars = mainEntry.vars ∧
        (genStmt (.fn "f" ["a"] [] 1) mainEntry).state.curFn = mainEntry.curFn ∧
        (genStmt (.fn "f" ["a"] [] 1) mainEntry).state.curBlock = mainEntry.curBlock) ∧
      ((fnEntry mainEntry "f" ["a"]).vars.map Prod.fst = (["a"] : List String).reverse ∧
        (∀ x, x ∉ (["a"] : List String) →
          lookupA (fnEntry mainEntry "f" ["a"]).vars x = none) ∧
        (∀ j (hj : j < (["a"] : List String).length), (["a"] : List String).Nodup →
          lookupA (fnEntry mainEntry "f" ["a"]).vars ((["a"] : List String).get ⟨j, hj⟩) =
            some (mainEntry.regCounter + j)) ∧
        lookupBlock (fnEntry mainEntry "f" ["a"]).blocks
            (fnEntry mainEntry "f" ["a"]).curBlock =
          some (paramInstrs ["a"] 0 mainEntry.regCounter)) ∧
      (∀ s₄, genStmts [] (fnEntry mainEntry "f" ["a"]) = .ok () s₄ →
        (blockTerminated s₄ = false →
          lookupBlock (genStmt (.fn "f" ["a"] [] 1) mainEntry).state.blocks s₄.curBlock =
            (lookupBlock s₄.blocks s₄.curBlock).map
              (fun l => l ++ [.ret 64 (.const 64 0)])) ∧
        (blockTerminated s₄ = true →
          (genStmt (.fn "f" ["a"] [] 1) mainEntry).state.blocks = s₄.blocks))) :=
  c5_function_scope_isolation "f" ["a"] [] 1 mainEntry
    (genStmt (.fn "f" ["a"] [] 1) mainEntry).state rfl rfl

/-! ## Block-structure invariant machinery -/

theorem newBlock_lookup_self (s : CG)
    (hfresh : lookupBlock s.blocks s.blockCounter = none) :
    lookupBlock (newBlock s).2.blocks s.blockCounter = some [] := by
  rw [show (newBlock s).2.blocks = s.blocks ++ [(s.blockCounter, [])] from rfl]
  rw [lookupBlock_append, hfresh]
  simp [lookupBlock]

theorem emitCondBr_content (v : Operand) (t f : Nat) (s : CG) :
    lookupBlock (emitCondBr v t f s).blocks s.curBlock =
      (lookupBlock s.blocks s.curBlock).map
        (fun l => l ++ [.icmp s.regCounter .ne v (.const 64 0),
          .condBr (.reg s.regCounter) t f]) := by
  rw [show (emitCondBr v t f s).blocks =
      updateBlocks (updateBlocks s.blocks s.curBlock
        (.icmp s.regCounter .ne v (.const 64 0)))
        s.curBlock (.condBr (.reg s.regCounter) t f) from rfl]
  rw [lookupBlock_updateBlocks_self, lookupBlock_updateBlocks_self]
  cases lookupBlock s.blocks s.curBlock <;> simp

theorem lookupA_cons_isSome (vars : List (String × Nat)) (y x : String) (r : Nat)
    (h : (lookupA vars y).isSome = true) :
    (lookupA ((x, r) :: vars) y).isSome = true := by
  show (if x = y then some r else lookupA vars y).isSome = true
  by_cases hx : x = y
  · rw [if_pos hx]
    rfl
  · rw [if_neg hx]
    exact h

theorem condAppend_vars (s : CG) (i : Instr) :
    (if blockTerminated s then s else appendInstr s i).vars = s.vars := by
  by_cases h : blockTerminated s = true
  · rw [if_pos h]
  · rw [if_neg h]
    rfl

theorem printIntTail_vars (value : Operand) (s₁ : CG) :
    (printIntTail value s₁).vars = s₁.vars := rfl

/-- One-step unfolding of the while case of `genStmt`. -/
theorem genStmt_while_eq (cond : Expr) (body : List Stmt) (lin : Nat) (s : CG) :
    genStmt (.whileS cond body lin) s =
      (match genExpr cond (whileReady s) with
       | .err e s1 => Res.err e s1
       | .ok v s₂ =>
         match genStmts body (setBlock (emitCondBr v (s.blockCounter + 1)
             (s.blockCounter + 2) s₂) (s.blockCounter + 1)) with
         | .err e s1 => Res.err e s1
         | .ok _ s₄ =>
           Res.ok () (setBlock (if blockTerminated s₄ then s₄
             else appendInstr s₄ (.br s.blockCounter)) (s.blockCounter + 2))) := rfl

/-- One-step unfolding of the function case of `genStmt`. -/
theorem genStmt_fn_eq (fname : String) (params : List String) (body : List Stmt)
    (lin : Nat) (s : CG) :
    genStmt (.fn fname params body lin) s =
      (match genStmts body (fnEntry s fname params) with
       | .err e s1 => Res.err e s1
       | .ok _ s₄ =>
         Res.ok () { (if blockTerminated s₄ then s₄
             else appendInstr s₄ (.ret 64 (.const 64 0))) with curFn := s.curFn, curBlock := s.curBlock, vars := s.vars }) := rfl

/-- One-step unfolding of the if case of `genStmt`. -/
theorem genStmt_if_eq (cond : Expr) (tb : List Stmt) (ecl : List (Expr × List Stmt))
    (eb : List Stmt) (lin : Nat) (s : CG) :
    genStmt (.ifS cond tb ecl eb lin) s =
      (match genExpr cond (ifElsePair s ecl eb).2 with
       | .err e s1 => Res.err e s1
       | .ok v s₅ =>
         match genStmts tb (setBlock (emitCondBr v s.blockCounter
             (firstFalseOf s ecl eb) s₅) s.blockCounter) with
         | .err e s1 => Res.err e s1
         | .ok _ s₇ =>
           match genElifs (s.blockCounter + 1) (finalTargetOf s ecl eb)
               (elifBlocksOf s ecl) ecl
               (if blockTerminated s₇ then s₇
                else appendInstr s₇ (.br (s.blockCounter + 1))) with
           | .err e s1 => Res.err e s1
           | .ok _ s₉ =>
             match (ifElsePair s ecl eb).1 with
             | none => Res.ok () (setBlock s₉ (s.blockCounter + 1))
             | some ebid =>
               match genStmts eb (setBlock s₉ ebid) with
               | .err e s1 => Res.err e s1
               | .ok _ s₁₀ =>
                 Res.ok () (setBlock (if blockTerminated s₁₀ then s₁₀
                   else appendInstr s₁₀ (.br (s.blockCounter + 1)))
                   (s.blockCounter + 1))) := rfl

/-- One-step unfolding of the elif loop on a clause with its block pair. -/
theorem genElifs_cons_eq (mB fT cb bb : Nat) (bidRest : List (Nat × Nat))
    (cnd : Expr) (bdy : List Stmt) (rest : List (Expr × List Stmt)) (s : CG) :
    genElifs mB fT ((cb, bb) :: bidRest) ((cnd, bdy) :: rest) s =
      (match genExpr cnd (setBlock s cb) with
       | .err e s1 => Res.err e s1
       | .ok v s₁ =>
         match genStmts bdy (setBlock (emitCondBr v bb (nextTarget fT bidRest) s₁) bb) with
         | .err e s1 => Res.err e s1
         | .ok _ s₃ =>
           genElifs mB fT bidRest rest
             (if blockTerminated s₃ then s₃ else appendInstr s₃ (.br mB))) := by
  cases bidRest with
  | nil => rfl
  | cons p pr =>
    obtain ⟨c2, b2⟩ := p
    rfl

/-- The `icmp`/`zext` pair of a comparison always leaves 0 or 1 in the
result register. -/
theorem icmp_zext_bool (ext : ExtCall) (m : Machine) (p q : Nat) (pr : Pred)
    (a b : Operand) :
    (execList ext [.icmp p pr a b, .zext q (.reg p)] m).regs q = 0 ∨
    (execList ext [.icmp p pr a b, .zext q (.reg p)] m).regs q = 1 := by
  have h1 : (execInstr ext (.icmp p pr a b) m).regs p =
      (if predHolds pr (evalOp m a) (evalOp m b) then 1 else 0) := by
    simp [execInstr, updF]
  have h2 : (execList ext [.icmp p pr a b, .zext q (.reg p)] m).regs q =
      (execInstr ext (.icmp p pr a b) m).regs p := by
    show (execInstr ext (.zext q (.reg p)) (execInstr ext (.icmp p pr a b) m)).regs q = _
    simp [execInstr, evalOp, updF]
  rw [h2, h1]
  by_cases hp : predHolds pr (evalOp m a) (evalOp m b) = true
  · right
    rw [if_pos hp]
  · left
    rw [if_neg hp]

/-- Unfolding of `_gen_expression` on a binary operation whose operands
have been lowered: the operator dispatch seen by the caller. -/
theorem genExpr_binOp_ok (op : String) (l r : Expr) (lin : Nat) (s s₁ s₂ : CG)
    (a b : Operand) (hl : genExpr l s = .ok a s₁) (hr : genExpr r s₁ = .ok b s₂) :
    genExpr (.binOp op l r lin) s =
      (if op = "==" then
        .ok (.reg (s₂.regCounter + 1))
          (appendInstr { appendInstr { s₂ with regCounter := s₂.regCounter + 1 }
              (.icmp s₂.regCounter .eq a b) with regCounter := s₂.regCounter + 2 }
            (.zext (s₂.regCounter + 1) (.reg s₂.regCounter)))
      else if op = "!=" then
        .ok (.reg (s₂.regCounter + 1))
          (appendInstr { appendInstr { s₂ with regCounter := s₂.regCounter + 1 }
              (.icmp s₂.regCounter .ne a b) with regCounter := s₂.regCounter + 2 }
            (.zext (s₂.regCounter + 1) (.reg s₂.regCounter)))
      else if op = ">" then
        .ok (.reg (s₂.regCounter + 1))
          (appendInstr { appendInstr { s₂ with regCounter := s₂.regCounter + 1 }
              (.icmp s₂.regCounter .sgt a b) with regCounter := s₂.regCounter + 2 }
            (.zext (s₂.regCounter + 1) (.reg s₂.regCounter)))
      else if op = "<" then
        .ok (.reg (s₂.regCounter + 1))
          (appendInstr { appendInstr { s₂ with regCounter := s₂.regCounter + 1 }
              (.icmp s₂.regCounter .slt a b) with regCounter := s₂.regCounter + 2 }
            (.zext (s₂.regCounter + 1) (.reg s₂.regCounter)))
      else if op = "%" then
        .ok (.reg s₂.regCounter)
          (appendInstr { s₂ with regCounter := s₂.regCounter + 1 }
            (.srem s₂.regCounter a b))
      else .err ⟨"未対応の演算子: " ++ op, lin⟩ s₂) := by
  have h0 : genExpr (.binOp op l r lin) s =
      (match genExpr l s with
       | .err e s' => .err e s'
       | .ok a' s₁' =>
         match genExpr r s₁' with
         | .err e s' => .err e s'
         | .ok b' s₂' =>
           if op = "==" then
             .ok (.reg (s₂'.regCounter + 1))
               (appendInstr { appendInstr { s₂' with regCounter := s₂'.regCounter + 1 }
                   (.icmp s₂'.regCounter .eq a' b') with regCounter := s₂'.regCounter + 2 }
                 (.zext (s₂'.regCounter + 1) (.reg s₂'.regCounter)))
           else if op = "!=" then
             .ok (.reg (s₂'.regCounter + 1))
               (appendInstr { appendInstr { s₂' with regCounter := s₂'.regCounter + 1 }
                   (.icmp s₂'.regCounter .ne a' b') with regCounter := s₂'.regCounter + 2 }
                 (.zext (s₂'.regCounter + 1) (.reg s₂'.regCounter)))
           else if op = ">" then
             .ok (.reg (s₂'.regCounter + 1))
               (appendInstr { appendInstr { s₂' with regCounter := s₂'.regCounter + 1 }
                   (.icmp s₂'.regCounter .sgt a' b') with regCounter := s₂'.regCounter + 2 }
                 (.zext (s₂'.regCounter + 1) (.reg s₂'.regCounter)))
           else if op = "<" then
             .ok (.reg (s₂'.regCounter + 1))
               (appendInstr { appendInstr { s₂' with regCounter := s₂'.regCounter + 1 }
                   (.icmp s₂'.regCounter .slt a' b') with regCounter := s₂'.regCounter + 2 }
                 (.zext (s₂'.regCounter + 1) (.reg s₂'.regCounter)))
           else if op = "%" then
             .ok (.reg s₂'.regCounter)
               (appendInstr { s₂' with regCounter := s₂'.regCounter + 1 }
                 (.srem s₂'.regCounter a' b'))
           else .err ⟨"未対応の演算子: " ++ op, lin⟩ s₂') := rfl
  rw [h0, hl]
  show ((match genExpr r s₁ with
       | Res.err e s' => Res.err e s'
       | Res.ok b' s₂' =>
         if op = "==" then
           .ok (.reg (s₂'.regCounter + 1))
             (appendInstr { appendInstr { s₂' with regCounter := s₂'.regCounter + 1 }
                 (.icmp s₂'.regCounter .eq a b') with regCounter := s₂'.regCounter + 2 }
               (.zext (s₂'.regCounter + 1) (.reg s₂'.regCounter)))
         else if op = "!=" then
           .ok (.reg (s₂'.regCounter + 1))
             (appendInstr { appendInstr { s₂' with regCounter := s₂'.regCounter + 1 }
                 (.icmp s₂'.regCounter .ne a b') with regCounter := s₂'.regCounter + 2 }
               (.zext (s₂'.regCounter + 1) (.reg s₂'.regCounter)))
         else if op = ">" then
           .ok (.reg (s₂'.regCounter + 1))
             (appendInstr { appendInstr { s₂' with regCounter := s₂'.regCounter + 1 }
                 (.icmp s₂'.regCounter .sgt a b') with regCounter := s₂'.regCounter + 2 }
               (.zext (s₂'.regCounter + 1) (.reg s₂'.regCounter)))
         else if op = "<" then
           .ok (.reg (s₂'.regCounter + 1))
             (appendInstr { appendInstr { s₂' with regCounter := s₂'.regCounter + 1 }
                 (.icmp s₂'.regCounter .slt a b') with regCounter := s₂'.regCounter + 2 }
               (.zext (s₂'.regCounter + 1) (.reg s₂'.regCounter)))
         else if op = "%" then
           .ok (.reg s₂'.regCounter)
             (appendInstr { s₂' with regCounter := s₂'.regCounter + 1 }
               (.srem s₂'.regCounter a b'))
         else .err ⟨"未対応の演算子: " ++ op, lin⟩ s₂' : Res Operand)) = _
  rw [hr]

/-- C4: (1) for each comparison operator the generated code is a signed
`icmp` with the matching predicate whose i1 result is zero-extended to i64
into the result register, and executing that pair always yields exactly 0
or 1; (2) `%` generates a single signed-remainder instruction computing
`Int.tmod`; (3) `_gen_if` and `_gen_while` test a condition value by
appending `icmp ne v 0` plus a conditional branch on that i1 — the emitted
flag register holds 1 exactly when the value is nonzero. -/
theorem c4_comparisons_srem_conditions :
    (∀ (op : String) (pr : Pred),
      (op, pr) ∈ [("==", Pred.eq), ("!=", Pred.ne), (">", Pred.sgt), ("<", Pred.slt)] →
      ∀ (l r : Expr) (lin : Nat) (s s₁ s₂ : CG) (a b : Operand),
        genExpr l s = .ok a s₁ → genExpr r s₁ = .ok b s₂ →
        genExpr (.binOp op l r lin) s =
          .ok (.reg (s₂.regCounter + 1))
            (appendInstr { appendInstr { s₂ with regCounter := s₂.regCounter + 1 }
                (.icmp s₂.regCounter pr a b) with regCounter := s₂.regCounter + 2 }
              (.zext (s₂.regCounter + 1) (.reg s₂.regCounter))) ∧
        (∀ (ext : ExtCall) (m : Machine),
          (execList ext [.icmp s₂.regCounter pr a b,
            .zext (s₂.regCounter + 1) (.reg s₂.regCounter)] m).regs (s₂.regCounter + 1) = 0 ∨
          (execList ext [.icmp s₂.regCounter pr a b,
            .zext (s₂.regCounter + 1) (.reg s₂.regCounter)] m).regs (s₂.regCounter + 1) = 1)) ∧
    (∀ (l r : Expr) (lin : Nat) (s s₁ s₂ : CG) (a b : Operand),
        genExpr l s = .ok a s₁ → genExpr r s₁ = .ok b s₂ →
        genExpr (.binOp "%" l r lin) s =
          .ok (.reg s₂.regCounter)
            (appendInstr { s₂ with regCounter := s₂.regCounter + 1 }
              (.srem s₂.regCounter a b)) ∧
        (∀ (ext : ExtCall) (m : Machine),
          (execList ext [.srem s₂.regCounter a b] m).regs s₂.regCounter =
            Int.tmod (evalOp m a) (evalOp m b))) ∧
    (∀ (v : Operand) (t f : Nat) (s : CG),
      lookupBlock (emitCondBr v t f s).blocks s.curBlock =
        (lookupBlock s.blocks s.curBlock).map
          (fun bl => bl ++ [.icmp s.regCounter .ne v (.const 64 0),
            .condBr (.reg s.regCounter) t f]) ∧
      (∀ (ext : ExtCall) (m : Machine),
        (execInstr ext (.icmp s.regCounter .ne v (.const 64 0)) m).regs s.regCounter =
          (if evalOp m v ≠ 0 then 1 else 0))) := by
  refine ⟨?_, ?_, ?_⟩
  · intro op pr hop l r lin s s₁ s₂ a b hl hr
    simp at hop
    rcases hop with ⟨h1, h2⟩ | ⟨h1, h2⟩ | ⟨h1, h2⟩ | ⟨h1, h2⟩
    all_goals subst h1
    all_goals subst h2
    all_goals rw [genExpr_binOp_ok _ l r lin s s₁ s₂ a b hl hr]
    all_goals exact ⟨by simp, fun ext m => icmp_zext_bool ext m _ _ _ _ _⟩
  · intro l r lin s s₁ s₂ a b hl hr
    rw [genExpr_binOp_ok "%" l r lin s s₁ s₂ a b hl hr]
    refine ⟨by simp, fun ext m => ?_⟩
    show (execInstr ext (.srem s₂.regCounter a b) m).regs s₂.regCounter = _
    simp [execInstr, updF]
  · intro v t f s
    refine ⟨emitCondBr_content v t f s, fun ext m => ?_⟩
    by_cases h : evalOp m v = 0
    · simp [execInstr, updF, predHolds, evalOp, h]
    · simp [execInstr, updF, predHolds, evalOp, h]

/-- C4 witness: `1 == 2` lowered in the fresh `main` state, executed on the
all-zero machine with a heap-preserving external model. -/
theorem c4_witness :
    (genExpr (.binOp "==" (.intLit 1 0) (.intLit 2 0) 0) mainEntry =
      .ok (.reg 1) (appendInstr { appendInstr { mainEntry with regCounter := 1 }
          (.icmp 0 .eq (.const 64 1) (.const 64 2)) with regCounter := 2 }
        (.zext 1 (.reg 0)))) ∧
    ((execList (fun _ _ m k => m.heap k) [.icmp 0 .eq (.const 64 1) (.const 64 2),
        .zext 1 (.reg 0)] ⟨fun _ => 0, fun _ => 0⟩).regs 1 = 0 ∨
      (execList (fun _ _ m k => m.heap k) [.icmp 0 .eq (.const 64 1) (.const 64 2),
        .zext 1 (.reg 0)] ⟨fun _ => 0, fun _ => 0⟩).regs 1 = 1) := by
  have H := c4_comparisons_srem_conditions.1 "==" Pred.eq (by decide)
    (.intLit 1 0) (.intLit 2 0) 0 mainEntry mainEntry mainEntry
    (.const 64 1) (.const 64 2) rfl rfl
  exact ⟨H.1, H.2 (fun _ _ m k => m.heap k) ⟨fun _ => 0, fun _ => 0⟩⟩

/-! ## Variable-table monotonicity, independent of well-formedness -/

theorem mkElifBlocks_vars : ∀ (ecl : List (Expr × List Stmt)) (s : CG),
    (mkElifBlocks ecl s).2.vars = s.vars := by
  intro ecl
  induction ecl with
  | nil => intro s; rfl
  | cons hd rest ih =>
    intro s
    obtain ⟨cnd, bdy⟩ := hd
    show (mkElifBlocks rest (newBlock (newBlock s).2).2).2.vars = s.vars
    exact ih ((newBlock (newBlock s).2).2)

theorem ifElsePair_vars (s : CG) (ecl : List (Expr × List Stmt)) (eb : List Stmt) :
    (ifElsePair s ecl eb).2.vars = s.vars := by
  cases eb with
  | nil => exact mkElifBlocks_vars ecl (sAfterMerge s)
  | cons e0 r => exact mkElifBlocks_vars ecl (sAfterMerge s)

/-- Decomposition of a successful while lowering into its pinned sub-runs. -/
theorem genStmt_while_run (cond : Expr) (body : List Stmt) (lin : Nat) (s s' : CG)
    (h : genStmt (.whileS cond body lin) s = .ok () s') :
    ∃ (v : Operand) (s₂ s₄ : CG),
      genExpr cond (whileReady s) = .ok v s₂ ∧
      genStmts body (setBlock (emitCondBr v (s.blockCounter + 1) (s.blockCounter + 2) s₂)
        (s.blockCounter + 1)) = .ok () s₄ ∧
      s' = setBlock (if blockTerminated s₄ then s₄
        else appendInstr s₄ (.br s.blockCounter)) (s.blockCounter + 2) := by
  rw [genStmt_while_eq] at h
  cases hx : genExpr cond (whileReady s) with
  | err e s1 =>
    rw [hx] at h
    exact Res.noConfusion h
  | ok v s₂ =>
    rw [hx] at h
    replace h : (match genStmts body (setBlock (emitCondBr v (s.blockCounter + 1)
          (s.blockCounter + 2) s₂) (s.blockCounter + 1)) with
        | .err e s1 => Res.err e s1
        | .ok _ s₄ =>
          Res.ok () (setBlock (if blockTerminated s₄ then s₄
            else appendInstr s₄ (.br s.blockCounter)) (s.blockCounter + 2))) =
        Res.ok () s' := h
    cases hy : genStmts body (setBlock (emitCondBr v (s.blockCounter + 1)
        (s.blockCounter + 2) s₂) (s.blockCounter + 1)) with
    | err e s1 =>
      rw [hy] at h
      exact Res.noConfusion h
    | ok a s₄ =>
      rw [hy] at h
      cases a
      injection h with h1 h2
      exact ⟨v, s₂, s₄, rfl, hy, h2.symm⟩

/-- Decomposition of a successful if lowering into its pinned sub-runs:
condition, then body, elif loop, and (when present) else body. -/
theorem genStmt_if_run (cond : Expr) (tb : List Stmt) (ecl : List (Expr × List Stmt))
    (eb : List Stmt) (lin : Nat) (s s' : CG)
    (h : genStmt (.ifS cond tb ecl eb lin) s = .ok () s') :
    ∃ (v : Operand) (s₅ s₇ s₉ : CG),
      genExpr cond (ifElsePair s ecl eb).2 = .ok v s₅ ∧
      genStmts tb (setBlock (emitCondBr v s.blockCounter (firstFalseOf s ecl eb) s₅)
        s.blockCounter) = .ok () s₇ ∧
      genElifs (s.blockCounter + 1) (finalTargetOf s ecl eb) (elifBlocksOf s ecl) ecl
        (if blockTerminated s₇ then s₇
         else appendInstr s₇ (.br (s.blockCounter + 1))) = .ok () s₉ ∧
      (((ifElsePair s ecl eb).1 = none ∧ s' = setBlock s₉ (s.blockCounter + 1)) ∨
       (∃ (ebid : Nat) (s₁₀ : CG), (ifElsePair s ecl eb).1 = some ebid ∧
         genStmts eb (setBlock s₉ ebid) = .ok () s₁₀ ∧
         s' = setBlock (if blockTerminated s₁₀ then s₁₀
           else appendInstr s₁₀ (.br (s.blockCounter + 1))) (s.blockCounter + 1))) := by
  rw [genStmt_if_eq] at h
  cases hx : genExpr cond (ifElsePair s ecl eb).2 with
  | err e s1 =>
    rw [hx] at h
    exact Res.noConfusion h
  | ok v s₅ =>
    rw [hx] at h
    replace h : (match genStmts tb (setBlock (emitCondBr v s.blockCounter
          (firstFalseOf s ecl eb) s₅) s.blockCounter) with
        | .err e s1 => Res.err e s1
        | .ok _ s₇ =>
          match genElifs (s.blockCounter + 1) (finalTargetOf s ecl eb)
              (elifBlocksOf s ecl) ecl
              (if blockTerminated s₇ then s₇
               else appendInstr s₇ (.br (s.blockCounter + 1))) with
          | .err e s1 => Res.err e s1
          | .ok _ s₉ =>
            match (ifElsePair s ecl eb).1 with
            | none => Res.ok () (setBlock s₉ (s.blockCounter + 1))
            | some ebid =>
              match genStmts eb (setBlock s₉ ebid) with
              | .err e s1 => Res.err e s1
              | .ok _ s₁₀ =>
                Res.ok () (setBlock (if blockTerminated s₁₀ then s₁₀
                  else appendInstr s₁₀ (.br (s.blockCounter + 1)))
                  (s.blockCounter + 1))) = Res.ok () s' := h
    cases hy : genStmts tb (setBlock (emitCondBr v s.blockCounter
        (firstFalseOf s ecl eb) s₅) s.blockCounter) with
    | err e s1 =>
      rw [hy] at h
      exact Res.noConfusion h
    | ok a7 s₇ =>
      rw [hy] at h
      cases a7
      replace h : (match genElifs (s.blockCounter + 1) (finalTargetOf s ecl eb)
            (elifBlocksOf s ecl) ecl
            (if blockTerminated s₇ then s₇
             else appendInstr s₇ (.br (s.blockCounter + 1))) with
          | .err e s1 => Res.err e s1
          | .ok _ s₉ =>
            match (ifElsePair s ecl eb).1 with
            | none => Res.ok () (setBlock s₉ (s.blockCounter + 1))
            | some ebid =>
              match genStmts eb (setBlock s₉ ebid) with
              | .err e s1 => Res.err e s1
              | .ok _ s₁₀ =>
                Res.ok () (setBlock (if blockTerminated s₁₀ then s₁₀
                  else appendInstr s₁₀ (.br (s.blockCounter + 1)))
                  (s.blockCounter + 1))) = Res.ok () s' := h
      cases hz : genElifs (s.blockCounter + 1) (finalTargetOf s ecl eb)
          (elifBlocksOf s ecl) ecl (if blockTerminated s₇ then s₇
            else appendInstr s₇ (.br (s.blockCounter + 1))) with
      | err e s1 =>
        rw [hz] at h
        exact Res.noConfusion h
      | ok a9 s₉ =>
        rw [hz] at h
        cases a9
        replace h : (match (ifElsePair s ecl eb).1 with
            | none => Res.ok () (setBlock s₉ (s.blockCounter + 1))
            | some ebid =>
              match genStmts eb (setBlock s₉ ebid) with
              | .err e s1 => Res.err e s1
              | .ok _ s₁₀ =>
                Res.ok () (setBlock (if blockTerminated s₁₀ then s₁₀
                  else appendInstr s₁₀ (.br (s.blockCounter + 1)))
                  (s.blockCounter + 1))) = Res.ok () s' := h
        cases hEB : (ifElsePair s ecl eb).1 with
        | none =>
          rw [hEB] at h
          injection h with h1 h2
          exact ⟨v, s₅, s₇, s₉, rfl, hy, hz, Or.inl ⟨rfl, h2.symm⟩⟩
        | some ebid =>
          rw [hEB] at h
          replace h : (match genStmts eb (setBlock s₉ ebid) with
              | .err e s1 => Res.err e s1
              | .ok _ s₁₀ =>
                Res.ok () (setBlock (if blockTerminated s₁₀ then s₁₀
                  else appendInstr s₁₀ (.br (s.blockCounter + 1)))
                  (s.blockCounter + 1))) = Res.ok () s' := h
          cases hzz : genStmts eb (setBlock s₉ ebid) with
          | err e s1 =>
            rw [hzz] at h
            exact Res.noConfusion h
          | ok a10 s₁₀ =>
            rw [hzz] at h
            cases a10
            injection h with h1 h2
            exact ⟨v, s₅, s₇, s₉, rfl, hy, hz, Or.inr ⟨ebid, s₁₀, rfl, hzz, h2.symm⟩⟩

/-- Decomposition of one successful elif-loop iteration into its pinned
sub-runs: clause condition, clause body, and the rest of the loop. -/
theorem genElifs_cons_run (mB fT cb bb : Nat) (bidRest : List (Nat × Nat))
    (cnd : Expr) (bdy : List Stmt) (rest : List (Expr × List Stmt)) (s s' : CG)
    (h : genElifs mB fT ((cb, bb) :: bidRest) ((cnd, bdy) :: rest) s = .ok () s') :
    ∃ (v : Operand) (s₁ s₃ : CG),
      genExpr cnd (setBlock s cb) = .ok v s₁ ∧
      genStmts bdy (setBlock (emitCondBr v bb (nextTarget fT bidRest) s₁) bb) = .ok () s₃ ∧
      genElifs mB fT bidRest rest
        (if blockTerminated s₃ then s₃ else appendInstr s₃ (.br mB)) = .ok () s' := by
  rw [genElifs_cons_eq] at h
  cases hx : genExpr cnd (setBlock s cb) with
  | err e s1 =>
    rw [hx] at h
    exact Res.noConfusion h
  | ok v s₁ =>
    rw [hx] at h
    replace h : (match genStmts bdy (setBlock (emitCondBr v bb
          (nextTarget fT bidRest) s₁) bb) with
        | .err e s1 => Res.err e s1
        | .ok _ s₃ =>
          genElifs mB fT bidRest rest
            (if blockTerminated s₃ then s₃ else appendInstr s₃ (.br mB))) =
        Res.ok () s' := h
    cases hy : genStmts bdy (setBlock (emitCondBr v bb
        (nextTarget fT bidRest) s₁) bb) with
    | err e s1 =>
      rw [hy] at h
      exact Res.noConfusion h
    | ok a3 s₃ =>
      rw [hy] at h
      cases a3
      exact ⟨v, s₁, s₃, rfl, hy, h⟩

/-- Variable effect of the default print path (shared by all non-string
operands): the table is unchanged. -/
theorem print_default_vars (v : Expr) (s s' : CG)
    (h : (match genExpr v s with
      | .err e s1 => Res.err e s1
      | .ok value s₁ => Res.ok () (printIntTail value s₁)) = Res.ok () s') :
    ∀ x, (lookupA s.vars x).isSome = true → (lookupA s'.vars x).isSome = true := by
  cases hx : genExpr v s with
  | err e s₁ =>
    rw [hx] at h
    exact Res.noConfusion h
  | ok value s₁ =>
    rw [hx] at h
    have hf := genExpr_frame v s
    rw [hx] at hf
    have hv₁ : s₁.vars = s.vars := hf.2
    injection h with h1 h2
    subst h2
    intro y hy
    show (lookupA s₁.vars y).isSome = true
    rw [hv₁]
    exact hy

/-- The variable table only ever grows (or, for `fn`, is restored to the
caller's table): every name visible before a successful statement,
statement-list or elif-loop lowering is still visible after it.  Unlike
`gen_inv_all` this needs no well-formedness side conditions, so it applies
at arbitrary generator states. -/
theorem vars_mono_all : ∀ (n : Nat),
    (∀ (st : Stmt) (s s' : CG), sizeOf st ≤ n →
      genStmt st s = .ok () s' →
      ∀ x, (lookupA s.vars x).isSome = true → (lookupA s'.vars x).isSome = true) ∧
    (∀ (l : List Stmt) (s s' : CG), sizeOf l ≤ n →
      genStmts l s = .ok () s' →
      ∀ x, (lookupA s.vars x).isSome = true → (lookupA s'.vars x).isSome = true) ∧
    (∀ (ecl : List (Expr × List Stmt)) (bl : List (Nat × Nat)) (mB fT : Nat)
      (s s' : CG), sizeOf ecl ≤ n →
      genElifs mB fT bl ecl s = .ok () s' →
      ∀ x, (lookupA s.vars x).isSome = true → (lookupA s'.vars x).isSome = true) := by
  intro n
  induction n using Nat.strong_induction_on with
  | _ n ih =>
  refine ⟨?_, ?_, ?_⟩
  · -- single statements
    intro st s s' hsz h
    cases st with
    | comment txt lin =>
      have h' : Res.ok () s = Res.ok () s' := h
      injection h' with h1 h2
      subst h2
      exact fun _ hx => hx
    | programStart lin =>
      have h' : Res.ok () s = Res.ok () s' := h
      injection h' with h1 h2
      subst h2
      exact fun _ hx => hx
    | programEnd lin =>
      have h' : Res.ok () (appendInstr (appendInstr { s with regCounter := s.regCounter + 1 }
          (.call s.regCounter "exit" [.const 32 0])) (.ret 32 (.const 32 0))) = Res.ok () s' := h
      injection h' with h1 h2
      subst h2
      exact fun _ hx => hx
    | throwS lin =>
      have h' : Res.ok () (appendInstr (appendInstr { s with regCounter := s.regCounter + 1 }
          (.call s.regCounter "exit" [.const 32 1])) (.ret 32 (.const 32 1))) = Res.ok () s' := h
      injection h' with h1 h2
      subst h2
      exact fun _ hx => hx
    | declare x lin =>
      have h' : Res.ok () { appendInstr (appendInstr { s with regCounter := s.regCounter + 1 }
          (.alloca s.regCounter x)) (.store (.const 64 0) (.reg s.regCounter)) with
          vars := (x, s.regCounter) :: s.vars } = Res.ok () s' := h
      injection h' with h1 h2
      subst h2
      intro y hy
      show (lookupA ((x, s.regCounter) :: s.vars) y).isSome = true
      exact lookupA_cons_isSome s.vars y x s.regCounter hy
    | assign x v lin =>
      unfold genStmt at h
      cases hx : genExpr v s with
      | err e s₁ =>
        rw [hx] at h
        exact Res.noConfusion h
      | ok value s₁ =>
        rw [hx] at h
        have hf := genExpr_frame v s
        rw [hx] at hf
        have hv₁ : s₁.vars = s.vars := hf.2
        replace h : (match lookupA s₁.vars x with
            | some slot => Res.ok () (appendInstr s₁ (.store value (.reg slot)))
            | none => Res.ok () (appendInstr
                { appendInstr { s₁ with regCounter := s₁.regCounter + 1 } (.alloca s₁.regCounter x) with
                  vars := (x, s₁.regCounter) :: s₁.vars }
                (.store value (.reg s₁.regCounter)))) = Res.ok () s' := h
        cases hl : lookupA s₁.vars x with
        | some slot =>
          rw [hl] at h
          have h' : Res.ok () (appendInstr s₁ (.store value (.reg slot))) = Res.ok () s' := h
          injection h' with h1 h2
          subst h2
          intro y hy
          show (lookupA s₁.vars y).isSome = true
          rw [hv₁]
          exact hy
        | none =>
          rw [hl] at h
          have h' : Res.ok () (appendInstr
              { appendInstr { s₁ with regCounter := s₁.regCounter + 1 } (.alloca s₁.regCounter x) with
                vars := (x, s₁.regCounter) :: s₁.vars }
              (.store value (.reg s₁.regCounter))) = Res.ok () s' := h
          injection h' with h1 h2
          subst h2
          intro y hy
          show (lookupA ((x, s₁.regCounter) :: s₁.vars) y).isSome = true
          refine lookupA_cons_isSome s₁.vars y x s₁.regCounter ?_
          rw [hv₁]
          exact hy
    | printS v lin =>
      cases v with
      | strLit content l2 =>
        have h' : Res.ok () (printStrTail content s) = Res.ok () s' := h
        injection h' with h1 h2
        subst h2
        exact fun _ hx => hx
      | intLit a b => exact print_default_vars (.intLit a b) s s' h
      | floatLit a b => exact print_default_vars (.floatLit a b) s s' h
      | ident a b => exact print_default_vars (.ident a b) s s' h
      | binOp o a b c => exact print_default_vars (.binOp o a b c) s s' h
    | inputS x lin =>
      unfold genStmt at h
      cases hl : lookupA s.vars x with
      | some slot =>
        rw [hl] at h
        have h' : Res.ok () (inputTail slot s) = Res.ok () s' := h
        injection h' with h1 h2
        subst h2
        exact fun _ hx => hx
      | none =>
        rw [hl] at h
        have h' : Res.ok () (inputTail s.regCounter
            { appendInstr { s with regCounter := s.regCounter + 1 } (.alloca s.regCounter x) with
              vars := (x, s.regCounter) :: s.vars }) = Res.ok () s' := h
        injection h' with h1 h2
        subst h2
        intro y hy
        show (lookupA ((x, s.regCounter) :: s.vars) y).isSome = true
        exact lookupA_cons_isSome s.vars y x s.regCounter hy
    | increment x lin =>
      unfold genStmt at h
      cases hl : lookupA s.vars x with
      | none =>
        rw [hl] at h
        exact Res.noConfusion h
      | some slot =>
        rw [hl] at h
        have h' : Res.ok () (appendInstr (appendInstr
            { appendInstr { s with regCounter := s.regCounter + 1 } (.load s.regCounter (.reg slot)) with
              regCounter := s.regCounter + 2 }
            (.add (s.regCounter + 1) (.reg s.regCounter) (.const 64 1)))
            (.store (.reg (s.regCounter + 1)) (.reg slot))) = Res.ok () s' := h
        injection h' with h1 h2
        subst h2
        exact fun _ hx => hx
    | decrement x lin =>
      unfold genStmt at h
      cases hl : lookupA s.vars x with
      | none =>
        rw [hl] at h
        exact Res.noConfusion h
      | some slot =>
        rw [hl] at h
        have h' : Res.ok () (appendInstr (appendInstr
            { appendInstr { s with regCounter := s.regCounter + 1 } (.load s.regCounter (.reg slot)) with
              regCounter := s.regCounter + 2 }
            (.sub (s.regCounter + 1) (.reg s.regCounter) (.const 64 1)))
            (.store (.reg (s.regCounter + 1)) (.reg slot))) = Res.ok () s' := h
        injection h' with h1 h2
        subst h2
        exact fun _ hx => hx
    | whileS cond body lin =>
      obtain ⟨v, s₂, s₄, hx, hy, hs'⟩ := genStmt_while_run cond body lin s s' h
      have hf := genExpr_frame cond (whileReady s)
      rw [hx] at hf
      have hv₂ : s₂.vars = s.vars := hf.2
      have hszb : sizeOf body < n := by
        have hlt : sizeOf body < sizeOf (Stmt.whileS cond body lin) := by
          simp
          all_goals omega
        omega
      subst hs'
      intro x hx0
      show (lookupA (if blockTerminated s₄ then s₄
        else appendInstr s₄ (.br s.blockCounter)).vars x).isSome = true
      rw [condAppend_vars]
      refine (ih (sizeOf body) hszb).2.1 body _ s₄ (le_refl _) hy x ?_
      show (lookupA s₂.vars x).isSome = true
      rw [hv₂]
      exact hx0
    | fn fname params body lin =>
      rw [genStmt_fn_eq] at h
      cases hy : genStmts body (fnEntry s fname params) with
      | err e s1 =>
        rw [hy] at h
        exact Res.noConfusion h
      | ok a s₄ =>
        rw [hy] at h
        cases a
        injection h with h1 h2
        subst h2
        exact fun _ hx => hx
    | ifS cond tb ecl eb lin =>
      obtain ⟨v, s₅, s₇, s₉, hx, hy, hz, hd⟩ := genStmt_if_run cond tb ecl eb lin s s' h
      have hf := genExpr_frame cond (ifElsePair s ecl eb).2
      rw [hx] at hf
      have hv₅ : s₅.vars = (ifElsePair s ecl eb).2.vars := hf.2
      have hsztb : sizeOf tb < n := by
        have hlt : sizeOf tb < sizeOf (Stmt.ifS cond tb ecl eb lin) := by
          simp
          all_goals omega
        omega
      have hszecl : sizeOf ecl < n := by
        have hlt : sizeOf ecl < sizeOf (Stmt.ifS cond tb ecl eb lin) := by
          simp
          all_goals omega
        omega
      have hszeb : sizeOf eb < n := by
        have hlt : sizeOf eb < sizeOf (Stmt.ifS cond tb ecl eb lin) := by
          simp
          all_goals omega
        omega
      intro x hx0
      have h9 : (lookupA s₉.vars x).isSome = true := by
        refine (ih (sizeOf ecl) hszecl).2.2 ecl (elifBlocksOf s ecl) (s.blockCounter + 1)
          (finalTargetOf s ecl eb) _ s₉ (le_refl _) hz x ?_
        rw [condAppend_vars]
        refine (ih (sizeOf tb) hsztb).2.1 tb _ s₇ (le_refl _) hy x ?_
        show (lookupA s₅.vars x).isSome = true
        rw [hv₅, ifElsePair_vars]
        exact hx0
      rcases hd with ⟨hEB, hs'⟩ | ⟨ebid, s₁₀, hEB, hzz, hs'⟩
      · subst hs'
        exact h9
      · subst hs'
        show (lookupA (if blockTerminated s₁₀ then s₁₀
          else appendInstr s₁₀ (.br (s.blockCounter + 1))).vars x).isSome = true
        rw [condAppend_vars]
        refine (ih (sizeOf eb) hszeb).2.1 eb _ s₁₀ (le_refl _) hzz x ?_
        show (lookupA s₉.vars x).isSome = true
        exact h9
  · -- statement lists
    intro l s s' hsz h
    cases l with
    | nil =>
      have h' : Res.ok () s = Res.ok () s' := h
      injection h' with h1 h2
      subst h2
      exact fun _ hx => hx
    | cons st rest =>
      rw [genStmts_cons] at h
      cases hst : genStmt st s with
      | err e s₁ =>
        rw [hst] at h
        exact Res.noConfusion h
      | ok a s₁ =>
        rw [hst] at h
        cases a
        have hsz1 : sizeOf st < n := by
          have hlt : sizeOf st < sizeOf (st :: rest) := by
            simp
            all_goals omega
          omega
        have hsz2 : sizeOf rest < n := by
          have hlt : sizeOf rest < sizeOf (st :: rest) := by
            simp
            all_goals omega
          omega
        intro x hx0
        exact (ih (sizeOf rest) hsz2).2.1 rest s₁ s' (le_refl _) h x
          ((ih (sizeOf st) hsz1).1 st s s₁ (le_refl _) hst x hx0)
  · -- the elif loop
    intro ecl bl mB fT s s' hsz h
    cases ecl with
    | nil =>
      cases bl with
      | nil =>
        have h' : Res.ok () s = Res.ok () s' := h
        injection h' with h1 h2
        subst h2
        exact fun _ hx => hx
      | cons p pr =>
        obtain ⟨cb, bb⟩ := p
        have h' : Res.ok () s = Res.ok () s' := h
        injection h' with h1 h2
        subst h2
        exact fun _ hx => hx
    | cons hd rest =>
      obtain ⟨cnd, bdy⟩ := hd
      cases bl with
      | nil =>
        have h' : Res.ok () s = Res.ok () s' := h
        injection h' with h1 h2
        subst h2
        exact fun _ hx => hx
      | cons p bidRest =>
        obtain ⟨cb, bb⟩ := p
        obtain ⟨v, s₁, s₃, hx, hy, htail⟩ :=
          genElifs_cons_run mB fT cb bb bidRest cnd bdy rest s s' h
        have hf := genExpr_frame cnd (setBlock s cb)
        rw [hx] at hf
        have hv₁ : s₁.vars = s.vars := hf.2
        have hszb : sizeOf bdy < n := by
          have hlt : sizeOf bdy < sizeOf ((cnd, bdy) :: rest) := by
            simp
            all_goals omega
          omega
        have hszr : sizeOf rest < n := by
          have hlt : sizeOf rest < sizeOf ((cnd, bdy) :: rest) := by
            simp
            all_goals omega
          omega
        intro x hx0
        refine (ih (sizeOf rest) hszr).2.2 rest bidRest mB fT _ s' (le_refl _) htail x ?_
        rw [condAppend_vars]
        refine (ih (sizeOf bdy) hszb).2.1 bdy _ s₃ (le_refl _) hy x ?_
        show (lookupA s₁.vars x).isSome = true
        rw [hv₁]
        exact hx0

/-- A successful statement-list lowering never removes a name from the
variable table. -/
theorem genStmts_vars_mono (l : List Stmt) (s s' : CG)
    (h : genStmts l s = .ok () s') :
    ∀ x, (lookupA s.vars x).isSome = true → (lookupA s'.vars x).isSome = true :=
  (vars_mono_all (sizeOf l)).2.1 l s s' (le_refl _) h

/-- A successful elif-loop lowering never removes a name from the variable
table. -/
theorem genElifs_vars_mono (ecl : List (Expr × List Stmt)) (bl : List (Nat × Nat))
    (mB fT : Nat) (s s' : CG) (h : genElifs mB fT bl ecl s = .ok () s') :
    ∀ x, (lookupA s.vars x).isSome = true → (lookupA s'.vars x).isSome = true :=
  (vars_mono_all (sizeOf ecl)).2.2 ecl bl mB fT s s' (le_refl _) h

/-- C10: variable visibility is per function, not per block.  A variable
declared or first-assigned inside an if/elif/else or while body remains in
the variable table after the construct's merge point, and every later
statement can read it.  The conjuncts:
(1) While body: the final table of a while statement is exactly the table
at the end of its body run, so a name declared or first-assigned in the
body stays visible after the loop's merge point.
(2) Then body: every name visible at the end of the then-body run of an if
statement is still visible in the statement's final table.
(3) Elif body: in any iteration of the elif loop (every clause heads the
loop suffix that starts at it, and that suffix's tail call returns the very
state the whole loop returns, so this applies to each clause), every name
visible at the end of the clause's body run is still visible when the elif
loop returns.
(4) Every name visible when the elif loop returns is still visible in the
if statement's final table, which carries (3) past the whole construct.
(5) Else body: the if statement's final table IS the table at the end of
the else-body run, so a name first bound in the else body survives the
merge.
(6) Later statements: lowering any further statement list keeps every
visible name visible, so a name that survived the construct is still in
the table when any later statement of the same function is lowered.
(7) A visible name is always readable: lowering an identifier that is in
the table never raises. -/
theorem c10_scope_is_function_level :
    (∀ (cond : Expr) (body : List Stmt) (lin : Nat) (s s' s₂ s₄ : CG) (v : Operand),
      genExpr cond (whileReady s) = .ok v s₂ →
      genStmts body (setBlock (emitCondBr v (s.blockCounter + 1) (s.blockCounter + 2) s₂)
        (s.blockCounter + 1)) = .ok () s₄ →
      genStmt (.whileS cond body lin) s = .ok () s' →
      s'.vars = s₄.vars) ∧
    (∀ (cond : Expr) (tb : List Stmt) (ecl : List (Expr × List Stmt)) (eb : List Stmt)
      (lin : Nat) (s s' s₅ s₇ : CG) (v : Operand),
      genExpr cond (ifElsePair s ecl eb).2 = .ok v s₅ →
      genStmts tb (setBlock (emitCondBr v s.blockCounter (firstFalseOf s ecl eb) s₅)
        s.blockCounter) = .ok () s₇ →
      genStmt (.ifS cond tb ecl eb lin) s = .ok () s' →
      ∀ x, (lookupA s₇.vars x).isSome = true → (lookupA s'.vars x).isSome = true) ∧
    (∀ (cnd : Expr) (bdy : List Stmt) (restE : List (Expr × List Stmt))
      (cb bb mB fT : Nat) (restB : List (Nat × Nat)) (sIn t₁ t₃ sOut : CG) (v : Operand),
      genExpr cnd (setBlock sIn cb) = .ok v t₁ →
      genStmts bdy (setBlock (emitCondBr v bb (nextTarget fT restB) t₁) bb) = .ok () t₃ →
      genElifs mB fT ((cb, bb) :: restB) ((cnd, bdy) :: restE) sIn = .ok () sOut →
      ∀ x, (lookupA t₃.vars x).isSome = true → (lookupA sOut.vars x).isSome = true) ∧
    (∀ (cond : Expr) (tb : List Stmt) (ecl : List (Expr × List Stmt)) (eb : List Stmt)
      (lin : Nat) (s s' s₅ s₇ s₉ : CG) (v : Operand),
      genExpr cond (ifElsePair s ecl eb).2 = .ok v s₅ →
      genStmts tb (setBlock (emitCondBr v s.blockCounter (firstFalseOf s ecl eb) s₅)
        s.blockCounter) = .ok () s₇ →
      genElifs (s.blockCounter + 1) (finalTargetOf s ecl eb) (elifBlocksOf s ecl) ecl
        (if blockTerminated s₇ then s₇
         else appendInstr s₇ (.br (s.blockCounter + 1))) = .ok () s₉ →
      genStmt (.ifS cond tb ecl eb lin) s = .ok () s' →
      ∀ x, (lookupA s₉.vars x).isSome = true → (lookupA s'.vars x).isSome = true) ∧
    (∀ (cond : Expr) (tb : List Stmt) (ecl : List (Expr × List Stmt)) (eb : List Stmt)
      (lin : Nat) (s s' s₅ s₇ s₉ s₁₀ : CG) (ebid : Nat) (v : Operand),
      genExpr cond (ifElsePair s ecl eb).2 = .ok v s₅ →
      genStmts tb (setBlock (emitCondBr v s.blockCounter (firstFalseOf s ecl eb) s₅)
        s.blockCounter) = .ok () s₇ →
      genElifs (s.blockCounter + 1) (finalTargetOf s ecl eb) (elifBlocksOf s ecl) ecl
        (if blockTerminated s₇ then s₇
         else appendInstr s₇ (.br (s.blockCounter + 1))) = .ok () s₉ →
      (ifElsePair s ecl eb).1 = some ebid →
      genStmts eb (setBlock s₉ ebid) = .ok () s₁₀ →
      genStmt (.ifS cond tb ecl eb lin) s = .ok () s' →
      s'.vars = s₁₀.vars) ∧
    (∀ (l : List Stmt) (s s' : CG), genStmts l s = .ok () s' →
      ∀ x, (lookupA s.vars x).isSome = true → (lookupA s'.vars x).isSome = true) ∧
    (∀ (x : String) (lin : Nat) (s : CG), (lookupA s.vars x).isSome = true →
      ∃ (r : Operand) (s₁ : CG), genExpr (.ident x lin) s = .ok r s₁) := by
  refine ⟨?_, ?_, ?_, ?_, ?_, ?_, ?_⟩
  · intro cond body lin s s' s₂ s₄ v hx hy h
    rw [genStmt_while_eq, hx] at h
    replace h : (match genStmts body (setBlock (emitCondBr v (s.blockCounter + 1)
          (s.blockCounter + 2) s₂) (s.blockCounter + 1)) with
        | .err e s1 => Res.err e s1
        | .ok _ s₄ =>
          Res.ok () (setBlock (if blockTerminated s₄ then s₄
            else appendInstr s₄ (.br s.blockCounter)) (s.blockCounter + 2))) =
        Res.ok () s' := h
    rw [hy] at h
    injection h with h1 h2
    subst h2
    show (if blockTerminated s₄ then s₄ else appendInstr s₄ (.br s.blockCounter)).vars = s₄.vars
    exact condAppend_vars s₄ _
  · intro cond tb ecl eb lin s s' s₅ s₇ v hx hy h
    obtain ⟨v', s₅', s₇', s₉, hx', hy', hz, hd⟩ := genStmt_if_run cond tb ecl eb lin s s' h
    rw [hx] at hx'
    injection hx' with he1 he2
    subst he1
    subst he2
    rw [hy] at hy'
    injection hy' with he3 he4
    subst he4
    intro x hx7
    have h9 : (lookupA s₉.vars x).isSome = true := by
      refine genElifs_vars_mono ecl (elifBlocksOf s ecl) (s.blockCounter + 1)
        (finalTargetOf s ecl eb) _ s₉ hz x ?_
      rw [condAppend_vars]
      exact hx7
    rcases hd with ⟨hEB, hs'⟩ | ⟨ebid, s₁₀, hEB, hzz, hs'⟩
    · subst hs'
      exact h9
    · subst hs'
      show (lookupA (if blockTerminated s₁₀ then s₁₀
        else appendInstr s₁₀ (.br (s.blockCounter + 1))).vars x).isSome = true
      rw [condAppend_vars]
      exact genStmts_vars_mono eb _ s₁₀ hzz x h9
  · intro cnd bdy restE cb bb mB fT restB sIn t₁ t₃ sOut v hx hy h
    obtain ⟨v', t₁', t₃', hx', hy', htail⟩ :=
      genElifs_cons_run mB fT cb bb restB cnd bdy restE sIn sOut h
    rw [hx] at hx'
    injection hx' with he1 he2
    subst he1
    subst he2
    rw [hy] at hy'
    injection hy' with he3 he4
    subst he4
    intro x hx3
    refine genElifs_vars_mono restE restB mB fT _ sOut htail x ?_
    rw [condAppend_vars]
    exact hx3
  · intro cond tb ecl eb lin s s' s₅ s₇ s₉ v hx hy hz h
    obtain ⟨v', s₅', s₇', s₉', hx', hy', hz', hd⟩ := genStmt_if_run cond tb ecl eb lin s s' h
    rw [hx] at hx'
    injection hx' with he1 he2
    subst he1
    subst he2
    rw [hy] at hy'
    injection hy' with he3 he4
    subst he4
    rw [hz] at hz'
    injection hz' with he5 he6
    subst he6
    intro x hx9
    rcases hd with ⟨hEB, hs'⟩ | ⟨ebid, s₁₀, hEB, hzz, hs'⟩
    · subst hs'
      exact hx9
    · subst hs'
      show (lookupA (if blockTerminated s₁₀ then s₁₀
        else appendInstr s₁₀ (.br (s.blockCounter + 1))).vars x).isSome = true
      rw [condAppend_vars]
      exact genStmts_vars_mono eb _ s₁₀ hzz x hx9
  · intro cond tb ecl eb lin s s' s₅ s₇ s₉ s₁₀ ebid v hx hy hz hEB hzz h
    obtain ⟨v', s₅', s₇', s₉', hx', hy', hz', hd⟩ := genStmt_if_run cond tb ecl eb lin s s' h
    rw [hx] at hx'
    injection hx' with he1 he2
    subst he1
    subst he2
    rw [hy] at hy'
    injection hy' with he3 he4
    subst he4
    rw [hz] at hz'
    injection hz' with he5 he6
    subst he6
    rcases hd with ⟨hEBn, hs'⟩ | ⟨ebid', s₁₀', hEBs, hzz', hs'⟩
    · rw [hEB] at hEBn
      exact Option.noConfusion hEBn
    · rw [hEB] at hEBs
      injection hEBs with he7
      subst he7
      rw [hzz] at hzz'
      injection hzz' with he8 he9
      subst he9
      subst hs'
      show (if blockTerminated s₁₀ then s₁₀
        else appendInstr s₁₀ (.br (s.blockCounter + 1))).vars = s₁₀.vars
      exact condAppend_vars s₁₀ (.br (s.blockCounter + 1))
  · intro l s s' h
    exact genStmts_vars_mono l s s' h
  · intro x lin s hx
    cases hl : lookupA s.vars x with
    | none =>
      rw [hl] at hx
      simp at hx
    | some slot =>
      refine ⟨.reg s.regCounter,
        appendInstr { s with regCounter := s.regCounter + 1 } (.load s.regCounter (.reg slot)),
        ?_⟩
      show genExpr (.ident x lin) s = _
      unfold genExpr
      rw [hl]
      rfl

/-- C10 witness: `x` is declared inside a while body; after the loop's
merge point the generator's variable table still contains `x`. -/
theorem c10_witness :
    (lookupA (genStmt (.whileS (.intLit 1 1) [.declare "x" 1] 1) mainEntry).state.vars
      "x").isSome = true := by
  have h := c10_scope_is_function_level.1 (.intLit 1 1) [.declare "x" 1] 1 mainEntry
    (genStmt (.whileS (.intLit 1 1) [.declare "x" 1] 1) mainEntry).state
    (whileReady mainEntry)
    (genStmts [.declare "x" 1] (setBlock (emitCondBr (.const 64 1)
      (mainEntry.blockCounter + 1) (mainEntry.blockCounter + 2) (whileReady mainEntry))
      (mainEntry.blockCounter + 1))).state
    (.const 64 1) rfl rfl rfl
  rw [h]
  decide
